import Mathlib

/-!
Shallow embedding of the `graph_walker` crate (src/graph_walker/src/lib.rs together
with neighbour_data.rs, hyper_params.rs, species.rs) in Lean 4.

Modelling conventions:
* `u32` / `u64` machine integers become `ℕ`, with `% 2 ^ 32` / `% 2 ^ 64` applied
  exactly where the Rust code wraps (the PCG32 generator of the `oorandom` crate).
* `f32` values (graffiti fields, push strengths, hyperparameters) are modelled by
  exact real arithmetic over `ℝ`; `f32::consts::E.powf x` becomes `Real.exp x`.
  The uniform variate produced by `Rand32::rand_float` is an exactly representable
  dyadic rational `(rand_u32 >> 8) / 2^24`, modelled in `ℚ` and cast to `ℝ` where
  it multiplies a weight.
* Code paths that panic in Rust (vector indexing out of bounds, the
  `_ => panic!("Invalid neighbour index")` match arm, `HashMap::get(..).unwrap()`)
  are modelled by `Option`, returning `none` exactly where the Rust code panics.
  The unbounded rejection loop inside `oorandom`'s Lemire range reduction gets a
  fuel parameter and also returns `none` on exhaustion.
-/

/-- State of `oorandom::Rand32`: a PCG32 generator with 64-bit state and stream. -/
structure Rand32 where
  state : ℕ
  inc : ℕ
deriving Repr, DecidableEq

/-- The 32-bit rotate-right used by PCG32's XSH-RR output function
(`u32::rotate_right`); `r` is always below 32 at call sites. -/
def rotr32 (x r : ℕ) : ℕ :=
  ((x >>> r) ||| (x <<< ((32 - r) % 32))) % 2 ^ 32

/-- Model of `Rand32::rand_u32` (PCG32 XSH-RR step): advance the 64-bit LCG state
and produce a 32-bit output from the old state. -/
def Rand32.rand_u32 (p : Rand32) : ℕ × Rand32 :=
  let oldstate := p.state
  let newstate := (oldstate * 6364136223846793005 + p.inc) % 2 ^ 64
  let xorshifted := (((oldstate >>> 18) ^^^ oldstate) >>> 27) % 2 ^ 32
  let rot := oldstate >>> 59
  (rotr32 xorshifted rot, ⟨newstate, p.inc⟩)

/-- Model of `Rand32::new` / `new_inc` with the default increment
1442695040888963407: start from state 0, step, add the seed, step again. -/
def Rand32.new (seed : ℕ) : Rand32 :=
  let inc := (1442695040888963407 <<< 1 ||| 1) % 2 ^ 64
  let p1 := (Rand32.rand_u32 ⟨0, inc⟩).2
  (Rand32.rand_u32 ⟨(p1.state + seed) % 2 ^ 64, inc⟩).2

/-- Model of `Rand32::rand_float`: a uniform dyadic rational in `[0,1)` built from
the top 24 bits of `rand_u32` (the value `(u >> 8) * 2⁻²⁴` is exact in `f32`). -/
def Rand32.rand_float (p : Rand32) : ℚ × Rand32 :=
  let (v, p1) := Rand32.rand_u32 p
  (((v >>> 8 : ℕ) : ℚ) / 2 ^ 24, p1)

/-- Fuel-bounded model of the rejection loop inside `Rand32::rand_range`
(Lemire's method): redraw while the low 32 bits of `x * s` are below `threshold`.
The Rust loop is unbounded; fuel exhaustion is modelled as `none`. -/
def lemireLoop (s threshold : ℕ) : ℕ → Rand32 → Option (ℕ × Rand32)
  | 0, _ => none
  | fuel + 1, p =>
    let (x, p1) := Rand32.rand_u32 p
    let m := x * s
    let leftover := m % 2 ^ 32
    if leftover < threshold then lemireLoop s threshold fuel p1
    else some (m >>> 32, p1)

/-- Model of `Rand32::rand_range(lo..hi)` (Lemire's multiply-shift reduction with
rejection).  For the empty range the Rust code returns `lo` without entering the
rejection branch, which this model reproduces. -/
def Rand32.rand_range (p : Rand32) (lo hi : ℕ) : Option (ℕ × Rand32) :=
  let s := hi - lo
  let (x, p1) := Rand32.rand_u32 p
  let m := x * s
  let leftover := m % 2 ^ 32
  if leftover < s then
    let threshold := ((2 ^ 32 - s) % 2 ^ 32) % s
    if leftover < threshold then
      match lemireLoop s threshold 100 p1 with
      | some (q, p2) => some (lo + q, p2)
      | none => none
    else some (lo + (m >>> 32), p1)
  else some (lo + (m >>> 32), p1)

/-- The two agent species (`AgentSpecies` in lib.rs). -/
inductive AgentSpecies where
  | Red
  | Blue
deriving Repr, DecidableEq

/-- The generic two-species container `Species<T>` of species.rs, holding one
value per species.  `SpeciesGraffiti` and `SpeciesPushStrength` are `Species<f32>`,
modelled as `Species ℝ`. -/
structure Species (T : Type) where
  red : T
  blue : T
deriving Repr, DecidableEq

abbrev SpeciesGraffiti := Species ℝ
abbrev SpeciesPushStrength := Species ℝ

/-- Constructor `Species::new`. -/
def Species.new {T : Type} (red blue : T) : Species T := ⟨red, blue⟩

/-- Method `Species::set_red`. -/
def Species.set_red {T : Type} (s : Species T) (amount : T) : Species T :=
  { s with red := amount }

/-- Method `Species::set_blue`. -/
def Species.set_blue {T : Type} (s : Species T) (amount : T) : Species T :=
  { s with blue := amount }

/-- Method `Species::add_red`. -/
def Species.add_red {T : Type} [Add T] (s : Species T) (amount : T) : Species T :=
  { s with red := s.red + amount }

/-- Method `Species::add_blue`. -/
def Species.add_blue {T : Type} [Add T] (s : Species T) (amount : T) : Species T :=
  { s with blue := s.blue + amount }

/-- Method `Species::mult_all`: multiply both components. -/
def Species.mult_all {T : Type} [Mul T] (s : Species T) (amount : T) : Species T :=
  { red := s.red * amount, blue := s.blue * amount }

/-- The `Neighbours` struct of neighbour_data.rs: one slot per direction plus the
constant `size` field.  It doubles as `NeigbourIndeces` (neighbour cell indices)
and `NeighbourAgentsOut` (per-direction outgoing agent counts). -/
structure Neighbours where
  top : ℕ
  bottom : ℕ
  left : ℕ
  right : ℕ
  size : ℕ
deriving Repr, DecidableEq

abbrev NeigbourIndeces := Neighbours
abbrev NeighbourAgentsOut := Neighbours

/-- Constructor `Neighbours::new(top, right, bottom, left)`; sets `size` to 4. -/
def Neighbours.new (top right bottom left : ℕ) : Neighbours :=
  { top := top, bottom := bottom, left := left, right := right, size := 4 }

/-- The iteration order of `impl IntoIterator for Neighbours`:
top, right, bottom, left. -/
def Neighbours.toList (n : Neighbours) : List ℕ :=
  [n.top, n.right, n.bottom, n.left]

/-- The scan inside `Neighbours::add_agent_to_random_cell`: walk the weight list
accumulating the running sum and return the index of the first element whose
cumulative sum reaches `r` (the `for … { if sum >= random_number { …; break } }`
loop); `none` when the loop finishes without a hit. -/
noncomputable def selectIndexGo (r : ℝ) : List ℝ → ℝ → ℕ → Option ℕ
  | [], _, _ => none
  | w :: ws, sum, i =>
    if sum + w ≥ r then some i else selectIndexGo r ws (sum + w) (i + 1)

/-- Model of `Neighbours::add_agent_to_random_cell`: draw
`random_number = rand_float() * total`, scan the cumulative sums, and increment
the slot of the first match (0 ↦ top, 1 ↦ right, 2 ↦ bottom, 3 ↦ left).  A match
at any other index models the `_ => panic!` arm as `none`; no match at all leaves
the counts unchanged, exactly as the Rust loop does. -/
noncomputable def Neighbours.add_agent_to_random_cell (out : Neighbours)
    (neighbour_push_stengths : List ℝ) (total_neighbour_push_stengths : ℝ)
    (p : Rand32) : Option (Neighbours × Rand32) :=
  let (u, p1) := Rand32.rand_float p
  let random_number := (u : ℝ) * total_neighbour_push_stengths
  match selectIndexGo random_number neighbour_push_stengths 0 0 with
  | none => some (out, p1)
  | some 0 => some ({ out with top := out.top + 1 }, p1)
  | some 1 => some ({ out with right := out.right + 1 }, p1)
  | some 2 => some ({ out with bottom := out.bottom + 1 }, p1)
  | some 3 => some ({ out with left := out.left + 1 }, p1)
  | some _ => none

/-- The `HyperParams` struct of hyper_params.rs. -/
structure HyperParams where
  gamma : ℝ
  lambda : ℝ
  beta : ℝ

/-- Constructor `HyperParams::new(gamma, lambda, beta)`: a plain record build,
performing no validation of its arguments. -/
def HyperParams.new (gamma lambda beta : ℝ) : HyperParams :=
  { gamma := gamma, lambda := lambda, beta := beta }

/-- `HyperParams::default()`: gamma 0.5, lambda 0.5, beta 1/100.  (0.5 is exact in
`f32`; the `f32` value `1.0 / 100.0` is modelled by the exact rational 1/100.) -/
noncomputable def HyperParams.default : HyperParams :=
  { gamma := 1 / 2, lambda := 1 / 2, beta := 1 / 100 }

/-- The `Node` struct of lib.rs.  `agents_out` is the two-element array indexed by
species, modelled as a pair whose first component is the red outflow buffer and
whose second is the blue one (matching `agents_out[0]` / `agents_out[1]`). -/
structure Node where
  index : ℕ
  neighbours : NeigbourIndeces
  graffiti : SpeciesGraffiti
  push_strength : SpeciesPushStrength
  blue_agents : ℕ
  red_agents : ℕ
  agents_out : NeighbourAgentsOut × NeighbourAgentsOut

instance : Inhabited Node :=
  ⟨{ index := 0, neighbours := Neighbours.new 0 0 0 0,
     graffiti := Species.new 0 0, push_strength := Species.new 0 0,
     blue_agents := 0, red_agents := 0,
     agents_out := (Neighbours.new 0 0 0 0, Neighbours.new 0 0 0 0) }⟩

/-- The edge map built by the double loop in `Universe2D::new`, as an association
list keyed by cell index `y * size + x`.  All keys are distinct, so association
list lookup agrees with the `HashMap` the source fills. -/
def edgesList (size : ℕ) : List (ℕ × NeigbourIndeces) :=
  (List.range size).flatMap fun y =>
    (List.range size).map fun x =>
      (y * size + x,
        Neighbours.new
          ((y + size - 1) % size * size + x)
          (y * size + (x + 1) % size)
          ((y + 1) % size * size + x)
          (y * size + (x + size - 1) % size))

/-- The torus neighbour structure of cell `i` on the `size × size` grid, written
as a function of the flat index (`x = i % size`, `y = i / size`).  The lookup in
`edgesList` is proved to produce exactly this value. -/
def torusNbr (size i : ℕ) : NeigbourIndeces :=
  Neighbours.new
    ((i / size + size - 1) % size * size + i % size)
    (i / size * size + (i % size + 1) % size)
    ((i / size + 1) % size * size + i % size)
    (i / size * size + (i % size + size - 1) % size)

/-- Constructor `Node::new`: look the cell's neighbour record up in the edge map
(`edges.get(&index).unwrap()`; a missing key is the `unwrap` panic, i.e. `none`). -/
def Node.new (index : ℕ) (edges : List (ℕ × NeigbourIndeces)) : Option Node :=
  match edges.lookup index with
  | none => none
  | some nbs => some
    { index := index, neighbours := nbs,
      graffiti := Species.new 0 0, push_strength := Species.new 0 0,
      blue_agents := 0, red_agents := 0,
      agents_out := (Neighbours.new 0 0 0 0, Neighbours.new 0 0 0 0) }

/-- Method `Node::get_prng`: a fresh `Rand32` seeded from the node's index and
current total occupancy (the `u64` product wraps). -/
def Node.get_prng (n : Node) : Rand32 :=
  Rand32.new ((n.index + 1) * (n.blue_agents + n.red_agents + 1) % 2 ^ 64)

/-- Method `Node::get_push_strength`. -/
def Node.get_push_strength (n : Node) (species : AgentSpecies) : ℝ :=
  match species with
  | AgentSpecies.Red => n.push_strength.red
  | AgentSpecies.Blue => n.push_strength.blue

/-- Method `Node::add_agents`. -/
def Node.add_agents (n : Node) (amount : ℕ) (species : AgentSpecies) : Node :=
  match species with
  | AgentSpecies.Red => { n with red_agents := n.red_agents + amount }
  | AgentSpecies.Blue => { n with blue_agents := n.blue_agents + amount }

/-- Method `Node::get_agents_with_species`, exactly as written in the source:
querying `Blue` returns the `red_agents` field and querying `Red` returns
`blue_agents`. -/
def Node.get_agents_with_species (n : Node) (species : AgentSpecies) : ℕ :=
  match species with
  | AgentSpecies.Blue => n.red_agents
  | AgentSpecies.Red => n.blue_agents

/-- The weight transform applied by `update_graffiti_and_push_strength`:
`E.powf (-beta * field)`, modelled with the exact real exponential. -/
noncomputable def pushStrengthOf (beta field : ℝ) : ℝ :=
  Real.exp (-beta * field)

/-- Method `Node::update_graffiti_and_push_strength`: decay both graffiti values
by `lambda`, deposit `gamma` per agent of the matching species, then recompute
both push strengths as `exp (-beta * graffiti)`. -/
noncomputable def Node.update_graffiti_and_push_strength (n : Node)
    (hyper_params : HyperParams) : Node :=
  let g0 := n.graffiti.mult_all hyper_params.lambda
  let g1 := g0.add_red (hyper_params.gamma * (n.red_agents : ℝ))
  let g2 := g1.add_blue (hyper_params.gamma * (n.blue_agents : ℝ))
  let ps1 := n.push_strength.set_red (pushStrengthOf hyper_params.beta g2.red)
  let ps2 := ps1.set_blue (pushStrengthOf hyper_params.beta g2.blue)
  { n with graffiti := g2, push_strength := ps2 }

/-- The `for _ in 0..count` loops of `move_agents_out`: repeatedly add one agent
to a random slot, threading the outflow buffer and the node-local generator. -/
noncomputable def agentsLoop (ws : List ℝ) (total : ℝ) :
    ℕ → Neighbours → Rand32 → Option (Neighbours × Rand32)
  | 0, out, p => some (out, p)
  | count + 1, out, p =>
    match out.add_agent_to_random_cell ws total p with
    | none => none
    | some (out1, p1) => agentsLoop ws total count out1 p1

/-- Method `Node::move_agents_out`: read the four neighbours from the phase-A
snapshot (in `IntoIterator` order top, right, bottom, left), separate their red
and blue push strengths and totals, then send each red agent to a slot drawn
from the blue strengths and each blue agent to a slot drawn from the red
strengths, all from the node's own generator; finally store the two outflow
buffers.  Out-of-bounds neighbour indices are the Rust indexing panic (`none`). -/
noncomputable def Node.move_agents_out (n : Node) (nodes : List Node)
    (_grid_size : ℕ) : Option Node :=
  match nodes[n.neighbours.top]?, nodes[n.neighbours.right]?,
      nodes[n.neighbours.bottom]?, nodes[n.neighbours.left]? with
  | some nt, some nr, some nb, some nl =>
    let reds := [nt.get_push_strength AgentSpecies.Red,
                 nr.get_push_strength AgentSpecies.Red,
                 nb.get_push_strength AgentSpecies.Red,
                 nl.get_push_strength AgentSpecies.Red]
    let blues := [nt.get_push_strength AgentSpecies.Blue,
                  nr.get_push_strength AgentSpecies.Blue,
                  nb.get_push_strength AgentSpecies.Blue,
                  nl.get_push_strength AgentSpecies.Blue]
    let total_neigh_push_strengths_red :=
      nt.get_push_strength AgentSpecies.Red + nr.get_push_strength AgentSpecies.Red +
        nb.get_push_strength AgentSpecies.Red + nl.get_push_strength AgentSpecies.Red
    let total_neigh_push_strengths_blue :=
      nt.get_push_strength AgentSpecies.Blue + nr.get_push_strength AgentSpecies.Blue +
        nb.get_push_strength AgentSpecies.Blue + nl.get_push_strength AgentSpecies.Blue
    match agentsLoop blues total_neigh_push_strengths_blue n.red_agents
        (Neighbours.new 0 0 0 0) n.get_prng with
    | none => none
    | some (red_agents_out, p1) =>
      match agentsLoop reds total_neigh_push_strengths_red n.blue_agents
          (Neighbours.new 0 0 0 0) p1 with
      | none => none
      | some (blue_agents_out, _) =>
        some { n with agents_out := (red_agents_out, blue_agents_out) }
  | _, _, _, _ => none

/-- Method `Node::move_agents_in`: zero the occupancy, then add, per species, the
slot of each neighbour's outflow buffer that points back at this node (the top
neighbour's bottom slot, the right neighbour's left slot, the bottom neighbour's
top slot, the left neighbour's right slot).  Out-of-bounds neighbour indices are
the Rust indexing panic (`none`). -/
def Node.move_agents_in (n : Node) (nodes : List Node) : Option Node :=
  match nodes[n.neighbours.top]?, nodes[n.neighbours.right]?,
      nodes[n.neighbours.bottom]?, nodes[n.neighbours.left]? with
  | some nt, some nr, some nb, some nl =>
    some { n with
      red_agents := nt.agents_out.1.bottom + nr.agents_out.1.left +
        nb.agents_out.1.top + nl.agents_out.1.right,
      blue_agents := nt.agents_out.2.bottom + nr.agents_out.2.left +
        nb.agents_out.2.top + nl.agents_out.2.right }
  | _, _, _, _ => none

/-- Option-propagating elementwise traversal: the independent per-node map of a
tick phase, with `none` exactly when some node's work panics. -/
def mapOpt {α β : Type} (f : α → Option β) : List α → Option (List β)
  | [] => some []
  | a :: as =>
    match f a, mapOpt f as with
    | some b, some bs => some (b :: bs)
    | _, _ => none

/-- The seeding loop of `Universe2D::new`: for each agent id, draw a node index
from the constructor's generator and add one agent of the species determined by
the id's parity.  `nodes[idx]` out of bounds is the Rust indexing panic. -/
def seedLoop (size : ℕ) : List ℕ → List Node → Rand32 → Option (List Node)
  | [], nodes, _ => some nodes
  | id :: ids, nodes, p =>
    match p.rand_range 0 (size * size) with
    | none => none
    | some (node_index, p1) =>
      match nodes[node_index]? with
      | none => none
      | some nd =>
        seedLoop size ids
          (nodes.set node_index
            (nd.add_agents 1
              (if id % 2 = 0 then AgentSpecies.Red else AgentSpecies.Blue))) p1

/-- The `Universe2D` struct of lib.rs. -/
structure Universe2D where
  size : ℕ
  nodes : List Node
  iteration : ℕ
  hyper_params : HyperParams

/-- Constructor `Universe2D::new(size, agent_size)`: build the edge map, create
one node per cell, then place `agent_size * 2` agents (alternating species) at
nodes drawn from `Rand32::new(100)`.  No argument validation is performed. -/
noncomputable def Universe2D.new (size agent_size : ℕ) : Option Universe2D :=
  let prng := Rand32.new 100
  let edges := edgesList size
  match mapOpt (fun index => Node.new index edges) (List.range (size * size)) with
  | none => none
  | some nodes =>
    match seedLoop size (List.range (agent_size * 2)) nodes prng with
    | none => none
    | some nodes1 =>
      some { size := size, nodes := nodes1, iteration := 0,
             hyper_params := HyperParams.default }

/-- Method `Universe2D::set_hyper_params`. -/
def Universe2D.set_hyper_params (u : Universe2D) (hyper_params : HyperParams) :
    Universe2D :=
  { u with hyper_params := hyper_params }

/-- Method `Universe2D::tick`: the three-phase pipeline.  Phase A updates every
node's graffiti and push strength in place; phase B computes every node's
outflow buffers against the phase-A snapshot; phase C replaces every node's
occupancy from the phase-B snapshot; finally the iteration counter increments. -/
noncomputable def Universe2D.tick (u : Universe2D) : Option Universe2D :=
  let nodes1 := u.nodes.map
    (fun node => node.update_graffiti_and_push_strength u.hyper_params)
  match mapOpt (fun node => node.move_agents_out nodes1 u.size) nodes1 with
  | none => none
  | some nodes2 =>
    match mapOpt (fun node => node.move_agents_in nodes2) nodes2 with
    | none => none
    | some nodes3 =>
      some { u with nodes := nodes3, iteration := u.iteration + 1 }

/-- Iterated `tick` (the spec's `iterate(n)`), propagating a failed tick. -/
noncomputable def Universe2D.tickN : ℕ → Universe2D → Option Universe2D
  | 0, u => some u
  | t + 1, u =>
    match u.tick with
    | none => none
    | some u1 => Universe2D.tickN t u1

/-- Sequential execution of one tick phase in an explicit node order: process the
listed indices one at a time, each reading the immutable pre-phase snapshot
`init` and overwriting only its own slot.  This models one possible interleaving
of the `par_iter_mut` loop, whose closures read the phase snapshot and write
disjoint slots. -/
def seqPhase {α : Type} (f : α → Option α) (init : List α) :
    List ℕ → List α → Option (List α)
  | [], acc => some acc
  | i :: order, acc =>
    match init[i]? with
    | none => none
    | some a =>
      match f a with
      | none => none
      | some b => seqPhase f init order (acc.set i b)

/-- One tick executed with explicit processing orders for the three phases,
modelling an arbitrary scheduling of the parallel loops in `Universe2D::tick`. -/
noncomputable def Universe2D.tickSeq (u : Universe2D) (o1 o2 o3 : List ℕ) :
    Option Universe2D :=
  match seqPhase
      (fun node => some (node.update_graffiti_and_push_strength u.hyper_params))
      u.nodes o1 u.nodes with
  | none => none
  | some nodes1 =>
    match seqPhase (fun node => node.move_agents_out nodes1 u.size) nodes1 o2 nodes1 with
    | none => none
    | some nodes2 =>
      match seqPhase (fun node => node.move_agents_in nodes2) nodes2 o3 nodes2 with
      | none => none
      | some nodes3 =>
        some { u with nodes := nodes3, iteration := u.iteration + 1 }

/-- Iterated `tickSeq` under a per-tick schedule of phase orders. -/
noncomputable def Universe2D.tickSeqN (sched : ℕ → List ℕ × List ℕ × List ℕ) :
    ℕ → Universe2D → Option Universe2D
  | 0, u => some u
  | t + 1, u =>
    match u.tickSeq (sched t).1 (sched t).2.1 (sched t).2.2 with
    | none => none
    | some u1 => Universe2D.tickSeqN sched t u1

/-- Cumulative weight sum over the first `k` entries of a weight vector. -/
def cumul (ws : List ℝ) (k : ℕ) : ℝ := (ws.take k).sum

/-- Modelled from the spec: the slot choice of §4.4 phase B, "the smallest slot
`k` with `C[k] ≥ r` (first match; ties broken by index order)", scanning slots in
ascending order. -/
noncomputable def smallestSlot (ws : List ℝ) (r : ℝ) : Option ℕ :=
  (List.range ws.length).find? fun k => decide (cumul ws (k + 1) ≥ r)

/-- Modelled from the spec: apply the chosen slot `k` of §4.4 phase B to the
outflow buffer, in the fixed slot order top, right, bottom, left. -/
def applySlot (out : Neighbours) : Option ℕ → Option Neighbours
  | none => some out
  | some 0 => some { out with top := out.top + 1 }
  | some 1 => some { out with right := out.right + 1 }
  | some 2 => some { out with bottom := out.bottom + 1 }
  | some 3 => some { out with left := out.left + 1 }
  | some _ => none

/-- Modelled from the spec (§4.4 phase B): distribute `count` discrete agents
over the four neighbour slots; each agent draws `r ~ Uniform(0, T)` from the
node's local deterministic stream (a `rand_float` variate scaled by
`T = C[last]`) and takes the smallest slot whose cumulative weight sum reaches
`r`. -/
noncomputable def specDistribute (ws : List ℝ) :
    ℕ → Neighbours → Rand32 → Option (Neighbours × Rand32)
  | 0, out, p => some (out, p)
  | count + 1, out, p =>
    let (u, p1) := Rand32.rand_float p
    let r := (u : ℝ) * cumul ws ws.length
    match applySlot out (smallestSlot ws r) with
    | none => none
    | some out1 => specDistribute ws count out1 p1

/-- Sum of the four directional slots of an outflow buffer. -/
def slotSum (n : Neighbours) : ℕ := n.top + n.right + n.bottom + n.left

/-- Total red occupancy of a node list. -/
def totRed (nodes : List Node) : ℕ := (nodes.map Node.red_agents).sum

/-- Total blue occupancy of a node list. -/
def totBlue (nodes : List Node) : ℕ := (nodes.map Node.blue_agents).sum

/-- Well-formedness of a universe over a `size × size` torus: positive size, one
node per cell, and every node's stored neighbour record is the torus formula for
its position.  `Universe2D::new` establishes this and `tick` preserves it. -/
def WF (S : ℕ) (u : Universe2D) : Prop :=
  1 ≤ S ∧ u.size = S ∧ u.nodes.length = S * S ∧
    ∀ i, i < S * S → (u.nodes.getD i default).neighbours = torusNbr S i

/-- The universe produced by `Universe2D::new 1 0`: a single self-looped node
with no agents (used as a concrete instantiation in witness statements). -/
noncomputable def universeOne : Universe2D :=
  { size := 1,
    nodes := [{ index := 0, neighbours := Neighbours.new 0 0 0 0,
                graffiti := Species.new 0 0, push_strength := Species.new 0 0,
                blue_agents := 0, red_agents := 0,
                agents_out := (Neighbours.new 0 0 0 0, Neighbours.new 0 0 0 0) }],
    iteration := 0,
    hyper_params := HyperParams.default }

/-- Modelled from the spec (Section 4.4 phase B), as the reference point for the
refinement claim about `move_agents_out`: read the four neighbours in slot order
top, right, bottom, left; distribute the node's red agents over the slots
against the neighbours' blue push strengths and its blue agents against the red
ones (cross-species), each agent via `specDistribute` on the node's local
stream; write only the two outflow buffers. -/
noncomputable def specPhaseB (nodes : List Node) (n : Node) : Option Node :=
  match nodes[n.neighbours.top]?, nodes[n.neighbours.right]?,
      nodes[n.neighbours.bottom]?, nodes[n.neighbours.left]? with
  | some nt, some nr, some nb, some nl =>
    match specDistribute [nt.push_strength.blue, nr.push_strength.blue,
        nb.push_strength.blue, nl.push_strength.blue] n.red_agents
        (Neighbours.new 0 0 0 0) n.get_prng with
    | none => none
    | some (red_agents_out, p1) =>
      match specDistribute [nt.push_strength.red, nr.push_strength.red,
          nb.push_strength.red, nl.push_strength.red] n.blue_agents
          (Neighbours.new 0 0 0 0) p1 with
      | none => none
      | some (blue_agents_out, _) =>
        some { n with agents_out := (red_agents_out, blue_agents_out) }
  | _, _, _, _ => none

lemma rand_u32_lt (p : Rand32) : (Rand32.rand_u32 p).1 < 2 ^ 32 := by
  unfold Rand32.rand_u32 rotr32
  exact Nat.mod_lt _ (by norm_num)

lemma rand_float_nonneg (p : Rand32) : 0 ≤ (Rand32.rand_float p).1 := by
  unfold Rand32.rand_float
  positivity

lemma rand_float_lt_one (p : Rand32) : (Rand32.rand_float p).1 < 1 := by
  have hv : (Rand32.rand_u32 p).1 < 2 ^ 32 := rand_u32_lt p
  unfold Rand32.rand_float
  rw [div_lt_one (by positivity)]
  have : (Rand32.rand_u32 p).1 >>> 8 < 2 ^ 24 := by
    rw [Nat.shiftRight_eq_div_pow]
    omega
  exact_mod_cast this

lemma selectIndexGo_lt (r : ℝ) :
    ∀ (ws : List ℝ) (sum : ℝ) (i j : ℕ),
      selectIndexGo r ws sum i = some j → j < i + ws.length := by
  intro ws
  induction ws with
  | nil => intro sum i j h; simp [selectIndexGo] at h
  | cons w ws ih =>
    intro sum i j h
    rw [selectIndexGo] at h
    by_cases hc : sum + w ≥ r
    · rw [if_pos hc] at h
      simp only [Option.some.injEq] at h
      simp [← h]
    · rw [if_neg hc] at h
      have := ih (sum + w) (i + 1) j h
      simp only [List.length_cons]
      omega

lemma selectIndexGo_isSome (r : ℝ) :
    ∀ (ws : List ℝ) (sum : ℝ) (i : ℕ), ws ≠ [] → r ≤ sum + ws.sum →
      (selectIndexGo r ws sum i).isSome := by
  intro ws
  induction ws with
  | nil => intro sum i h; exact absurd rfl h
  | cons w ws ih =>
    intro sum i _ hr
    rw [selectIndexGo]
    by_cases hc : sum + w ≥ r
    · rw [if_pos hc]; rfl
    · rw [if_neg hc]
      rcases List.eq_nil_or_concat ws with h0 | _
      · subst h0
        simp only [List.sum_cons, List.sum_nil, add_zero] at hr
        exact absurd (by linarith : sum + w ≥ r) hc
      · refine ih (sum + w) (i + 1) ?_ ?_
        · rintro rfl
          rename_i hcat; rcases hcat with ⟨l, a, hla⟩; simp at hla
        · simp only [List.sum_cons] at hr
          linarith

lemma add_agent_total (out : Neighbours) (ws : List ℝ) (total : ℝ) (p : Rand32)
    (hlen : ws.length = 4) (htot : total = ws.sum) (hnn : 0 ≤ total) :
    ∃ out1, out.add_agent_to_random_cell ws total p =
        some (out1, (Rand32.rand_float p).2) ∧
      slotSum out1 = slotSum out + 1 ∧ out1.size = out.size := by
  have hu0 : (0 : ℝ) ≤ ((Rand32.rand_float p).1 : ℝ) := by
    exact_mod_cast rand_float_nonneg p
  have hu1 : ((Rand32.rand_float p).1 : ℝ) ≤ 1 := by
    have := rand_float_lt_one p
    have : ((Rand32.rand_float p).1 : ℝ) < 1 := by exact_mod_cast this
    linarith
  have hr : ((Rand32.rand_float p).1 : ℝ) * total ≤ 0 + ws.sum := by
    rw [zero_add, ← htot]
    calc ((Rand32.rand_float p).1 : ℝ) * total ≤ 1 * total :=
          mul_le_mul_of_nonneg_right hu1 hnn
      _ = total := one_mul total
  have hne : ws ≠ [] := by
    intro h; rw [h] at hlen; simp at hlen
  have hsome := selectIndexGo_isSome (((Rand32.rand_float p).1 : ℝ) * total) ws 0 0 hne hr
  rcases Option.isSome_iff_exists.mp hsome with ⟨j, hj⟩
  have hjlt : j < 4 := by
    have := selectIndexGo_lt (((Rand32.rand_float p).1 : ℝ) * total) ws 0 0 j hj
    omega
  rw [Neighbours.add_agent_to_random_cell]
  interval_cases j <;>
    simp only [hj] <;>
    exact ⟨_, rfl, by simp [slotSum]; omega, rfl⟩

lemma agentsLoop_total (ws : List ℝ) (total : ℝ)
    (htot : total = ws.sum) (hlen : ws.length = 4) (hnn : 0 ≤ total) :
    ∀ (count : ℕ) (out : Neighbours) (p : Rand32),
      ∃ out1 p1, agentsLoop ws total count out p = some (out1, p1) ∧
        slotSum out1 = slotSum out + count ∧ out1.size = out.size := by
  intro count
  induction count with
  | zero => intro out p; exact ⟨out, p, rfl, by omega, rfl⟩
  | succ c ih =>
    intro out p
    rcases add_agent_total out ws total p hlen htot hnn with ⟨out1, heq, hsum, hsize⟩
    rcases ih out1 (Rand32.rand_float p).2 with ⟨out2, p2, heq2, hsum2, hsize2⟩
    refine ⟨out2, p2, ?_, by omega, by rw [hsize2, hsize]⟩
    rw [agentsLoop, heq]
    exact heq2

lemma lookup_append {α : Type} (l1 l2 : List (ℕ × α)) (k : ℕ) :
    (l1 ++ l2).lookup k = (l1.lookup k).or (l2.lookup k) := by
  induction l1 with
  | nil => simp [List.lookup]
  | cons a l ih =>
    rcases a with ⟨a1, a2⟩
    simp only [List.cons_append, List.lookup]
    cases h : (k == a1) with
    | true => rfl
    | false => simpa using ih

lemma lookupRangeMap {α : Type} (v : ℕ → α) :
    ∀ (N k : ℕ), ((List.range N).map (fun i => (i, v i))).lookup k =
      if k < N then some (v k) else none := by
  intro N
  induction N with
  | zero => intro k; simp [List.lookup]
  | succ N ih =>
    intro k
    rw [List.range_succ, List.map_append, lookup_append, ih]
    by_cases h : k < N
    · rw [if_pos h, if_pos (by omega)]; rfl
    · rw [if_neg h]
      by_cases h2 : k = N
      · subst h2
        simp [List.lookup]
      · have hb : (k == N) = false := beq_eq_false_iff_ne.mpr h2
        rw [if_neg (by omega)]
        simp [List.lookup, hb]

lemma flatMapRange {α : Type} (g : ℕ → ℕ → α) (S : ℕ) :
    ∀ n : ℕ, (List.range n).flatMap (fun y => (List.range S).map (fun x => g y x)) =
      (List.range (n * S)).map (fun i => g (i / S) (i % S)) := by
  intro n
  rcases Nat.eq_zero_or_pos S with hS | hS
  · subst hS; simp
  induction n with
  | zero => simp
  | succ n ih =>
    have hstep : (n + 1) * S = n * S + S := by ring
    rw [List.range_succ, List.flatMap_append, ih, hstep, List.range_add,
      List.map_append, List.map_map]
    have h2 : List.map ((fun i => g (i / S) (i % S)) ∘ (fun x => n * S + x))
        (List.range S) = List.map (fun x => g n x) (List.range S) := by
      refine List.map_congr_left ?_
      intro x hx
      have hxS : x < S := List.mem_range.mp hx
      simp only [Function.comp_apply]
      rw [Nat.add_comm (n * S) x, Nat.mul_comm n S,
        Nat.add_mul_div_left _ _ hS, Nat.add_mul_mod_self_left,
        Nat.div_eq_of_lt hxS, Nat.mod_eq_of_lt hxS, Nat.zero_add]
    rw [h2]
    simp

lemma edgesList_eq_map (S : ℕ) :
    edgesList S = (List.range (S * S)).map (fun i => (i, torusNbr S i)) := by
  rw [edgesList, flatMapRange (fun y x =>
    (y * S + x,
      Neighbours.new ((y + S - 1) % S * S + x) (y * S + (x + 1) % S)
        ((y + 1) % S * S + x) (y * S + (x + S - 1) % S))) S S]
  refine List.map_congr_left ?_
  intro i _
  have hdm : i / S * S + i % S = i := by
    rw [Nat.mul_comm (i / S) S]
    exact Nat.div_add_mod i S
  rw [torusNbr, hdm]

lemma lookup_edgesList (S i : ℕ) (hi : i < S * S) :
    (edgesList S).lookup i = some (torusNbr S i) := by
  rw [edgesList_eq_map, lookupRangeMap (torusNbr S), if_pos hi]

lemma cellBound (S a b : ℕ) (ha : a < S) (hb : b < S) : a * S + b < S * S := by
  calc a * S + b < a * S + S := Nat.add_lt_add_left hb _
    _ = (a + 1) * S := by ring
    _ ≤ S * S := Nat.mul_le_mul_right S ha

lemma torusNbr_lt (S i : ℕ) (hS : 1 ≤ S) (hi : i < S * S) :
    (torusNbr S i).top < S * S ∧ (torusNbr S i).right < S * S ∧
      (torusNbr S i).bottom < S * S ∧ (torusNbr S i).left < S * S := by
  have hS0 : 0 < S := hS
  have hdiv : i / S < S := Nat.div_lt_of_lt_mul (by omega)
  have hmod : i % S < S := Nat.mod_lt _ hS0
  refine ⟨?_, ?_, ?_, ?_⟩ <;> simp only [torusNbr, Neighbours.new]
  · exact cellBound S _ _ (Nat.mod_lt _ hS0) hmod
  · exact cellBound S _ _ hdiv (Nat.mod_lt _ hS0)
  · exact cellBound S _ _ (Nat.mod_lt _ hS0) hmod
  · exact cellBound S _ _ hdiv (Nat.mod_lt _ hS0)

lemma mapOpt_eq_map {α β : Type} (f : α → Option β) (g : α → β) :
    ∀ l : List α, (∀ a ∈ l, f a = some (g a)) → mapOpt f l = some (l.map g) := by
  intro l
  induction l with
  | nil => intro _; rfl
  | cons a as ih =>
    intro h
    rw [mapOpt, h a (List.mem_cons_self a as), ih (fun b hb => h b (List.mem_cons_of_mem a hb))]
    rfl

lemma mapOpt_none {α β : Type} (f : α → Option β) :
    ∀ l : List α, (∃ a ∈ l, f a = none) → mapOpt f l = none := by
  intro l
  induction l with
  | nil => rintro ⟨a, ha, _⟩; simp at ha
  | cons a as ih =>
    rintro ⟨b, hb, hfb⟩
    rcases List.mem_cons.mp hb with h | h
    · subst h; rw [mapOpt, hfb]
    · rw [mapOpt, ih ⟨b, h, hfb⟩]
      cases f a <;> rfl

lemma update_graffiti_red (nd : Node) (hp : HyperParams) :
    (nd.update_graffiti_and_push_strength hp).graffiti.red =
      nd.graffiti.red * hp.lambda + hp.gamma * (nd.red_agents : ℝ) := rfl

lemma update_graffiti_blue (nd : Node) (hp : HyperParams) :
    (nd.update_graffiti_and_push_strength hp).graffiti.blue =
      nd.graffiti.blue * hp.lambda + hp.gamma * (nd.blue_agents : ℝ) := rfl

lemma update_push_red (nd : Node) (hp : HyperParams) :
    (nd.update_graffiti_and_push_strength hp).push_strength.red =
      pushStrengthOf hp.beta ((nd.update_graffiti_and_push_strength hp).graffiti.red) := rfl

lemma update_push_blue (nd : Node) (hp : HyperParams) :
    (nd.update_graffiti_and_push_strength hp).push_strength.blue =
      pushStrengthOf hp.beta ((nd.update_graffiti_and_push_strength hp).graffiti.blue) := rfl

lemma update_preserves (nd : Node) (hp : HyperParams) :
    (nd.update_graffiti_and_push_strength hp).index = nd.index ∧
      (nd.update_graffiti_and_push_strength hp).neighbours = nd.neighbours ∧
      (nd.update_graffiti_and_push_strength hp).red_agents = nd.red_agents ∧
      (nd.update_graffiti_and_push_strength hp).blue_agents = nd.blue_agents ∧
      (nd.update_graffiti_and_push_strength hp).agents_out = nd.agents_out :=
  ⟨rfl, rfl, rfl, rfl, rfl⟩

lemma pushStrengthOf_pos (beta field : ℝ) : 0 < pushStrengthOf beta field :=
  Real.exp_pos _

lemma move_agents_out_spec (nodes : List Node) (n : Node) (gs : ℕ)
    (ht : n.neighbours.top < nodes.length) (hr : n.neighbours.right < nodes.length)
    (hb : n.neighbours.bottom < nodes.length) (hl : n.neighbours.left < nodes.length)
    (hpos : ∀ nd ∈ nodes, 0 ≤ nd.push_strength.red ∧ 0 ≤ nd.push_strength.blue) :
    ∃ ro bo, n.move_agents_out nodes gs = some { n with agents_out := (ro, bo) } ∧
      slotSum ro = n.red_agents ∧ slotSum bo = n.blue_agents := by
  have et : nodes[n.neighbours.top]? = some nodes[n.neighbours.top] :=
    List.getElem?_eq_getElem ht
  have er : nodes[n.neighbours.right]? = some nodes[n.neighbours.right] :=
    List.getElem?_eq_getElem hr
  have eb : nodes[n.neighbours.bottom]? = some nodes[n.neighbours.bottom] :=
    List.getElem?_eq_getElem hb
  have el : nodes[n.neighbours.left]? = some nodes[n.neighbours.left] :=
    List.getElem?_eq_getElem hl
  have hmemt := List.getElem_mem ht
  have hmemr := List.getElem_mem hr
  have hmemb := List.getElem_mem hb
  have hmeml := List.getElem_mem hl
  rw [Node.move_agents_out, et, er, eb, el]
  set nt := nodes[n.neighbours.top]
  set nr := nodes[n.neighbours.right]
  set nb := nodes[n.neighbours.bottom]
  set nl := nodes[n.neighbours.left]
  have hblues : nt.get_push_strength AgentSpecies.Blue + nr.get_push_strength AgentSpecies.Blue +
      nb.get_push_strength AgentSpecies.Blue + nl.get_push_strength AgentSpecies.Blue =
      ([nt.get_push_strength AgentSpecies.Blue, nr.get_push_strength AgentSpecies.Blue,
        nb.get_push_strength AgentSpecies.Blue, nl.get_push_strength AgentSpecies.Blue] : List ℝ).sum := by
    simp; ring
  have hreds : nt.get_push_strength AgentSpecies.Red + nr.get_push_strength AgentSpecies.Red +
      nb.get_push_strength AgentSpecies.Red + nl.get_push_strength AgentSpecies.Red =
      ([nt.get_push_strength AgentSpecies.Red, nr.get_push_strength AgentSpecies.Red,
        nb.get_push_strength AgentSpecies.Red, nl.get_push_strength AgentSpecies.Red] : List ℝ).sum := by
    simp; ring
  have hpt := hpos nt hmemt
  have hpr := hpos nr hmemr
  have hpb := hpos nb hmemb
  have hpl := hpos nl hmeml
  have hnnb : (0 : ℝ) ≤ nt.get_push_strength AgentSpecies.Blue +
      nr.get_push_strength AgentSpecies.Blue + nb.get_push_strength AgentSpecies.Blue +
      nl.get_push_strength AgentSpecies.Blue := by
    simp only [Node.get_push_strength]
    linarith [hpt.2, hpr.2, hpb.2, hpl.2]
  have hnnr : (0 : ℝ) ≤ nt.get_push_strength AgentSpecies.Red +
      nr.get_push_strength AgentSpecies.Red + nb.get_push_strength AgentSpecies.Red +
      nl.get_push_strength AgentSpecies.Red := by
    simp only [Node.get_push_strength]
    linarith [hpt.1, hpr.1, hpb.1, hpl.1]
  rcases agentsLoop_total _ _ hblues rfl hnnb n.red_agents (Neighbours.new 0 0 0 0)
      n.get_prng with ⟨ro, p1, hro, hros, _⟩
  rcases agentsLoop_total _ _ hreds rfl hnnr n.blue_agents (Neighbours.new 0 0 0 0)
      p1 with ⟨bo, p2, hbo, hbos, _⟩
  refine ⟨ro, bo, ?_, ?_, ?_⟩
  · simp only [hro, hbo]
  · have : slotSum (Neighbours.new 0 0 0 0) = 0 := rfl
    omega
  · have : slotSum (Neighbours.new 0 0 0 0) = 0 := rfl
    omega

lemma move_agents_in_spec (nodes : List Node) (n : Node)
    (ht : n.neighbours.top < nodes.length) (hr : n.neighbours.right < nodes.length)
    (hb : n.neighbours.bottom < nodes.length) (hl : n.neighbours.left < nodes.length) :
    n.move_agents_in nodes = some { n with
      red_agents := nodes[n.neighbours.top].agents_out.1.bottom +
        nodes[n.neighbours.right].agents_out.1.left +
        nodes[n.neighbours.bottom].agents_out.1.top +
        nodes[n.neighbours.left].agents_out.1.right,
      blue_agents := nodes[n.neighbours.top].agents_out.2.bottom +
        nodes[n.neighbours.right].agents_out.2.left +
        nodes[n.neighbours.bottom].agents_out.2.top +
        nodes[n.neighbours.left].agents_out.2.right } := by
  rw [Node.move_agents_in, List.getElem?_eq_getElem ht, List.getElem?_eq_getElem hr,
    List.getElem?_eq_getElem hb, List.getElem?_eq_getElem hl]

lemma list_sum_map_range (f : Node → ℕ) (l : List Node) :
    (l.map f).sum = ∑ i ∈ Finset.range l.length, f (l.getD i default) := by
  induction l with
  | nil => simp
  | cons a as ih =>
    rw [List.map_cons, List.sum_cons, List.length_cons, Finset.sum_range_succ']
    simp only [List.getD_cons_succ, List.getD_cons_zero]
    rw [ih]
    exact (Nat.add_comm _ _)

lemma sum_range_mul (f : ℕ → ℕ) (S : ℕ) :
    ∀ n : ℕ, ∑ i ∈ Finset.range (n * S), f i =
      ∑ y ∈ Finset.range n, ∑ x ∈ Finset.range S, f (y * S + x) := by
  intro n
  induction n with
  | zero => simp
  | succ n ih =>
    have hstep : (n + 1) * S = n * S + S := by ring
    rw [hstep, Finset.range_eq_Ico, ← Finset.sum_Ico_consecutive f
      (Nat.zero_le (n * S)) (Nat.le_add_right (n * S) S)]
    nth_rewrite 2 [Finset.sum_Ico_eq_sum_range]
    have hsub : n * S + S - n * S = S := Nat.add_sub_cancel_left (n * S) S
    rw [hsub, ← Finset.range_eq_Ico, ih, Finset.sum_range_succ]

lemma mod_pred_succ (S a : ℕ) (hS : 1 ≤ S) (ha : a < S) :
    ((a + S - 1) % S + 1) % S = a := by
  rcases a with _ | b
  · have h1 : S - 1 < S := by omega
    rw [Nat.zero_add, Nat.mod_eq_of_lt h1]
    have h2 : S - 1 + 1 = S := by omega
    rw [h2, Nat.mod_self]
  · have h1 : b + 1 + S - 1 = b + S := by omega
    rw [h1, Nat.add_mod_right, Nat.mod_eq_of_lt (by omega : b < S),
      Nat.mod_eq_of_lt ha]

lemma mod_succ_pred (S a : ℕ) (hS : 1 ≤ S) (ha : a < S) :
    ((a + 1) % S + S - 1) % S = a := by
  by_cases h : a + 1 < S
  · rw [Nat.mod_eq_of_lt h]
    have h1 : a + 1 + S - 1 = a + S := by omega
    rw [h1, Nat.add_mod_right, Nat.mod_eq_of_lt ha]
  · have h1 : a + 1 = S := by omega
    rw [h1, Nat.mod_self, Nat.zero_add]
    have h2 : S - 1 < S := by omega
    rw [Nat.mod_eq_of_lt h2]
    omega

lemma sum_shift_pred (S : ℕ) (hS : 1 ≤ S) (h : ℕ → ℕ) :
    ∑ y ∈ Finset.range S, h ((y + S - 1) % S) = ∑ y ∈ Finset.range S, h y := by
  refine Finset.sum_nbij' (fun y => (y + S - 1) % S) (fun y => (y + 1) % S)
    ?_ ?_ ?_ ?_ ?_
  · intro a _; exact Finset.mem_range.mpr (Nat.mod_lt _ hS)
  · intro a _; exact Finset.mem_range.mpr (Nat.mod_lt _ hS)
  · intro a ha; exact mod_pred_succ S a hS (Finset.mem_range.mp ha)
  · intro a ha; exact mod_succ_pred S a hS (Finset.mem_range.mp ha)
  · intro a _; rfl

lemma sum_shift_succ (S : ℕ) (hS : 1 ≤ S) (h : ℕ → ℕ) :
    ∑ y ∈ Finset.range S, h ((y + 1) % S) = ∑ y ∈ Finset.range S, h y := by
  refine Finset.sum_nbij' (fun y => (y + 1) % S) (fun y => (y + S - 1) % S)
    ?_ ?_ ?_ ?_ ?_
  · intro a _; exact Finset.mem_range.mpr (Nat.mod_lt _ hS)
  · intro a _; exact Finset.mem_range.mpr (Nat.mod_lt _ hS)
  · intro a ha; exact mod_succ_pred S a hS (Finset.mem_range.mp ha)
  · intro a ha; exact mod_pred_succ S a hS (Finset.mem_range.mp ha)
  · intro a _; rfl

lemma divmod_cell (S y x : ℕ) (hS : 1 ≤ S) (hx : x < S) :
    (y * S + x) / S = y ∧ (y * S + x) % S = x := by
  constructor
  · rw [Nat.add_comm (y * S) x, Nat.mul_comm y S, Nat.add_mul_div_left _ _ hS,
      Nat.div_eq_of_lt hx, Nat.zero_add]
  · rw [Nat.add_comm (y * S) x, Nat.mul_comm y S, Nat.add_mul_mod_self_left,
      Nat.mod_eq_of_lt hx]

lemma sum_top_reindex (S : ℕ) (hS : 1 ≤ S) (g : ℕ → ℕ) :
    ∑ i ∈ Finset.range (S * S), g ((torusNbr S i).top) =
      ∑ j ∈ Finset.range (S * S), g j := by
  rw [sum_range_mul (fun i => g ((torusNbr S i).top)) S S, sum_range_mul g S S]
  have hinner : ∀ y ∈ Finset.range S,
      ∑ x ∈ Finset.range S, g ((torusNbr S (y * S + x)).top) =
        ∑ x ∈ Finset.range S, g ((y + S - 1) % S * S + x) := by
    intro y _
    refine Finset.sum_congr rfl ?_
    intro x hx
    rcases divmod_cell S y x hS (Finset.mem_range.mp hx) with ⟨hd, hm⟩
    rw [torusNbr, hd, hm]
    rfl
  rw [Finset.sum_congr rfl hinner]
  exact sum_shift_pred S hS (fun y => ∑ x ∈ Finset.range S, g (y * S + x))

lemma sum_bottom_reindex (S : ℕ) (hS : 1 ≤ S) (g : ℕ → ℕ) :
    ∑ i ∈ Finset.range (S * S), g ((torusNbr S i).bottom) =
      ∑ j ∈ Finset.range (S * S), g j := by
  rw [sum_range_mul (fun i => g ((torusNbr S i).bottom)) S S, sum_range_mul g S S]
  have hinner : ∀ y ∈ Finset.range S,
      ∑ x ∈ Finset.range S, g ((torusNbr S (y * S + x)).bottom) =
        ∑ x ∈ Finset.range S, g ((y + 1) % S * S + x) := by
    intro y _
    refine Finset.sum_congr rfl ?_
    intro x hx
    rcases divmod_cell S y x hS (Finset.mem_range.mp hx) with ⟨hd, hm⟩
    rw [torusNbr, hd, hm]
    rfl
  rw [Finset.sum_congr rfl hinner]
  exact sum_shift_succ S hS (fun y => ∑ x ∈ Finset.range S, g (y * S + x))

lemma sum_right_reindex (S : ℕ) (hS : 1 ≤ S) (g : ℕ → ℕ) :
    ∑ i ∈ Finset.range (S * S), g ((torusNbr S i).right) =
      ∑ j ∈ Finset.range (S * S), g j := by
  rw [sum_range_mul (fun i => g ((torusNbr S i).right)) S S, sum_range_mul g S S]
  refine Finset.sum_congr rfl ?_
  intro y _
  have hinner : ∑ x ∈ Finset.range S, g ((torusNbr S (y * S + x)).right) =
      ∑ x ∈ Finset.range S, g (y * S + (x + 1) % S) := by
    refine Finset.sum_congr rfl ?_
    intro x hx
    rcases divmod_cell S y x hS (Finset.mem_range.mp hx) with ⟨hd, hm⟩
    rw [torusNbr, hd, hm]
    rfl
  rw [hinner]
  exact sum_shift_succ S hS (fun x => g (y * S + x))

lemma sum_left_reindex (S : ℕ) (hS : 1 ≤ S) (g : ℕ → ℕ) :
    ∑ i ∈ Finset.range (S * S), g ((torusNbr S i).left) =
      ∑ j ∈ Finset.range (S * S), g j := by
  rw [sum_range_mul (fun i => g ((torusNbr S i).left)) S S, sum_range_mul g S S]
  refine Finset.sum_congr rfl ?_
  intro y _
  have hinner : ∑ x ∈ Finset.range S, g ((torusNbr S (y * S + x)).left) =
      ∑ x ∈ Finset.range S, g (y * S + (x + S - 1) % S) := by
    refine Finset.sum_congr rfl ?_
    intro x hx
    rcases divmod_cell S y x hS (Finset.mem_range.mp hx) with ⟨hd, hm⟩
    rw [torusNbr, hd, hm]
    rfl
  rw [hinner]
  exact sum_shift_pred S hS (fun x => g (y * S + x))

lemma getD_of_lt {α : Type} (l : List α) (i : ℕ) (d : α) (h : i < l.length) :
    l.getD i d = l[i] := by
  rw [List.getD_eq_getElem?_getD, List.getElem?_eq_getElem h]
  rfl

lemma getD_map (f : Node → Node) (l : List Node) (i : ℕ) (h : i < l.length) :
    (l.map f).getD i default = f (l.getD i default) := by
  rw [getD_of_lt _ _ _ (by simpa using h), getD_of_lt _ _ _ h, List.getElem_map]

lemma mapOpt_eq_map_getD {α β : Type} [Inhabited β] (f : α → Option β) (l : List α)
    (h : ∀ a ∈ l, (f a).isSome) :
    mapOpt f l = some (l.map (fun a => (f a).getD default)) := by
  refine mapOpt_eq_map f _ l ?_
  intro a ha
  rcases Option.isSome_iff_exists.mp (h a ha) with ⟨b, hb⟩
  rw [hb]
  rfl

lemma phaseB_total (S : ℕ) (hS : 1 ≤ S) (nodes1 : List Node) (gs : ℕ)
    (hlen : nodes1.length = S * S)
    (hnb : ∀ i, i < S * S → (nodes1.getD i default).neighbours = torusNbr S i)
    (hpos : ∀ nd ∈ nodes1, 0 ≤ nd.push_strength.red ∧ 0 ≤ nd.push_strength.blue) :
    ∃ nodes2, mapOpt (fun nd => nd.move_agents_out nodes1 gs) nodes1 = some nodes2 ∧
      nodes2.length = S * S ∧
      ∀ i, i < S * S →
        (nodes2.getD i default).neighbours = torusNbr S i ∧
        (nodes2.getD i default).red_agents = (nodes1.getD i default).red_agents ∧
        (nodes2.getD i default).blue_agents = (nodes1.getD i default).blue_agents ∧
        slotSum (nodes2.getD i default).agents_out.1 = (nodes1.getD i default).red_agents ∧
        slotSum (nodes2.getD i default).agents_out.2 = (nodes1.getD i default).blue_agents := by
  have hspec : ∀ i, i < S * S → ∃ ro bo,
      (nodes1.getD i default).move_agents_out nodes1 gs =
        some { nodes1.getD i default with agents_out := (ro, bo) } ∧
      slotSum ro = (nodes1.getD i default).red_agents ∧
      slotSum bo = (nodes1.getD i default).blue_agents := by
    intro i hi
    have hnbi := hnb i hi
    rcases torusNbr_lt S i hS hi with ⟨h1, h2, h3, h4⟩
    exact move_agents_out_spec nodes1 _ gs
      (by rw [hnbi]; omega) (by rw [hnbi]; omega) (by rw [hnbi]; omega)
      (by rw [hnbi]; omega) hpos
  have hsome : ∀ nd ∈ nodes1, (nd.move_agents_out nodes1 gs).isSome := by
    intro nd hnd
    rcases List.mem_iff_getElem.mp hnd with ⟨i, hi, hrfl⟩
    have hi2 : i < S * S := by omega
    rcases hspec i hi2 with ⟨ro, bo, heq, _, _⟩
    rw [← hrfl, ← getD_of_lt _ _ default hi, heq]
    rfl
  refine ⟨_, mapOpt_eq_map_getD _ _ hsome, by simpa using hlen, ?_⟩
  intro i hi
  have hilen : i < nodes1.length := by omega
  rw [getD_map _ _ _ hilen]
  rcases hspec i hi with ⟨ro, bo, heq, hsr, hsb⟩
  rw [heq]
  exact ⟨hnb i hi, rfl, rfl, hsr, hsb⟩

lemma phaseC_total (S : ℕ) (hS : 1 ≤ S) (nodes2 : List Node)
    (hlen : nodes2.length = S * S)
    (hnb : ∀ i, i < S * S → (nodes2.getD i default).neighbours = torusNbr S i) :
    ∃ nodes3, mapOpt (fun nd => nd.move_agents_in nodes2) nodes2 = some nodes3 ∧
      nodes3.length = S * S ∧
      ∀ i, i < S * S →
        (nodes3.getD i default).neighbours = torusNbr S i ∧
        (nodes3.getD i default).red_agents =
          (nodes2.getD (torusNbr S i).top default).agents_out.1.bottom +
          (nodes2.getD (torusNbr S i).right default).agents_out.1.left +
          (nodes2.getD (torusNbr S i).bottom default).agents_out.1.top +
          (nodes2.getD (torusNbr S i).left default).agents_out.1.right ∧
        (nodes3.getD i default).blue_agents =
          (nodes2.getD (torusNbr S i).top default).agents_out.2.bottom +
          (nodes2.getD (torusNbr S i).right default).agents_out.2.left +
          (nodes2.getD (torusNbr S i).bottom default).agents_out.2.top +
          (nodes2.getD (torusNbr S i).left default).agents_out.2.right := by
  have hspec : ∀ i, i < S * S →
      (nodes2.getD i default).move_agents_in nodes2 =
        some { nodes2.getD i default with
          red_agents :=
            (nodes2.getD (torusNbr S i).top default).agents_out.1.bottom +
            (nodes2.getD (torusNbr S i).right default).agents_out.1.left +
            (nodes2.getD (torusNbr S i).bottom default).agents_out.1.top +
            (nodes2.getD (torusNbr S i).left default).agents_out.1.right,
          blue_agents :=
            (nodes2.getD (torusNbr S i).top default).agents_out.2.bottom +
            (nodes2.getD (torusNbr S i).right default).agents_out.2.left +
            (nodes2.getD (torusNbr S i).bottom default).agents_out.2.top +
            (nodes2.getD (torusNbr S i).left default).agents_out.2.right } := by
    intro i hi
    have hnbi := hnb i hi
    rcases torusNbr_lt S i hS hi with ⟨h1, h2, h3, h4⟩
    have ht : (nodes2.getD i default).neighbours.top < nodes2.length := by rw [hnbi]; omega
    have hr : (nodes2.getD i default).neighbours.right < nodes2.length := by rw [hnbi]; omega
    have hb : (nodes2.getD i default).neighbours.bottom < nodes2.length := by rw [hnbi]; omega
    have hl : (nodes2.getD i default).neighbours.left < nodes2.length := by rw [hnbi]; omega
    rw [move_agents_in_spec nodes2 _ ht hr hb hl]
    rw [← getD_of_lt _ _ default ht, ← getD_of_lt _ _ default hr,
      ← getD_of_lt _ _ default hb, ← getD_of_lt _ _ default hl]
    have hnbi2 : (nodes2[i]?.getD default).neighbours = torusNbr S i := by
      rw [← List.getD_eq_getElem?_getD]
      exact hnbi
    simp [hnbi2]
  have hsome : ∀ nd ∈ nodes2, (nd.move_agents_in nodes2).isSome := by
    intro nd hnd
    rcases List.mem_iff_getElem.mp hnd with ⟨i, hi, hrfl⟩
    have hi2 : i < S * S := by omega
    rw [← hrfl, ← getD_of_lt _ _ default hi, hspec i hi2]
    rfl
  refine ⟨_, mapOpt_eq_map_getD _ _ hsome, by simpa using hlen, ?_⟩
  intro i hi
  have hilen : i < nodes2.length := by omega
  rw [getD_map _ _ _ hilen, hspec i hi]
  exact ⟨hnb i hi, rfl, rfl⟩

lemma tick_spec (S : ℕ) (u : Universe2D) (h : WF S u) :
    ∃ u1, u.tick = some u1 ∧ WF S u1 ∧
      totRed u1.nodes = totRed u.nodes ∧ totBlue u1.nodes = totBlue u.nodes ∧
      u1.hyper_params = u.hyper_params ∧ u1.size = u.size ∧
      u1.iteration = u.iteration + 1 := by
  obtain ⟨hS, hsize, hlen, hnb⟩ := h
  set hp := u.hyper_params with hhp
  set nodes1 := u.nodes.map (fun nd => nd.update_graffiti_and_push_strength hp)
    with hn1
  have hlen1 : nodes1.length = S * S := by
    rw [hn1, List.length_map, hlen]
  have hnb1 : ∀ i, i < S * S → (nodes1.getD i default).neighbours = torusNbr S i := by
    intro i hi
    rw [hn1, getD_map _ _ _ (by omega), (update_preserves _ hp).2.1]
    exact hnb i hi
  have hpos1 : ∀ nd ∈ nodes1, 0 ≤ nd.push_strength.red ∧ 0 ≤ nd.push_strength.blue := by
    intro nd hnd
    rw [hn1] at hnd
    rcases List.mem_map.mp hnd with ⟨nd0, _, rfl⟩
    rw [update_push_red, update_push_blue]
    exact ⟨(pushStrengthOf_pos _ _).le, (pushStrengthOf_pos _ _).le⟩
  have hocc1r : ∀ i, i < S * S →
      (nodes1.getD i default).red_agents = (u.nodes.getD i default).red_agents := by
    intro i hi
    rw [hn1, getD_map _ _ _ (by omega), (update_preserves _ hp).2.2.1]
  have hocc1b : ∀ i, i < S * S →
      (nodes1.getD i default).blue_agents = (u.nodes.getD i default).blue_agents := by
    intro i hi
    rw [hn1, getD_map _ _ _ (by omega), (update_preserves _ hp).2.2.2.1]
  rcases phaseB_total S hS nodes1 u.size hlen1 hnb1 hpos1 with
    ⟨nodes2, hB, hlen2, hprops2⟩
  have hnb2 : ∀ i, i < S * S → (nodes2.getD i default).neighbours = torusNbr S i :=
    fun i hi => (hprops2 i hi).1
  rcases phaseC_total S hS nodes2 hlen2 hnb2 with ⟨nodes3, hC, hlen3, hprops3⟩
  have htotr : totRed nodes3 = totRed u.nodes := by
    have e1 : totRed nodes3 =
        ∑ i ∈ Finset.range (S * S), (nodes3.getD i default).red_agents := by
      rw [totRed, list_sum_map_range Node.red_agents nodes3, hlen3]
    have e2 : ∑ i ∈ Finset.range (S * S), (nodes3.getD i default).red_agents =
        ∑ i ∈ Finset.range (S * S),
          ((nodes2.getD ((torusNbr S i).top) default).agents_out.1.bottom +
           (nodes2.getD ((torusNbr S i).right) default).agents_out.1.left +
           (nodes2.getD ((torusNbr S i).bottom) default).agents_out.1.top +
           (nodes2.getD ((torusNbr S i).left) default).agents_out.1.right) :=
      Finset.sum_congr rfl fun i hi => (hprops3 i (Finset.mem_range.mp hi)).2.1
    have e3 : ∑ i ∈ Finset.range (S * S),
          ((nodes2.getD ((torusNbr S i).top) default).agents_out.1.bottom +
           (nodes2.getD ((torusNbr S i).right) default).agents_out.1.left +
           (nodes2.getD ((torusNbr S i).bottom) default).agents_out.1.top +
           (nodes2.getD ((torusNbr S i).left) default).agents_out.1.right) =
        ∑ j ∈ Finset.range (S * S), (nodes2.getD j default).agents_out.1.bottom +
          (∑ j ∈ Finset.range (S * S), (nodes2.getD j default).agents_out.1.left +
            (∑ j ∈ Finset.range (S * S), (nodes2.getD j default).agents_out.1.top +
              ∑ j ∈ Finset.range (S * S), (nodes2.getD j default).agents_out.1.right)) := by
      rw [Finset.sum_add_distrib, Finset.sum_add_distrib, Finset.sum_add_distrib]
      rw [sum_top_reindex S hS (fun j => (nodes2.getD j default).agents_out.1.bottom),
        sum_right_reindex S hS (fun j => (nodes2.getD j default).agents_out.1.left),
        sum_bottom_reindex S hS (fun j => (nodes2.getD j default).agents_out.1.top),
        sum_left_reindex S hS (fun j => (nodes2.getD j default).agents_out.1.right)]
      omega
    have e4 : ∑ j ∈ Finset.range (S * S), (nodes2.getD j default).agents_out.1.bottom +
          (∑ j ∈ Finset.range (S * S), (nodes2.getD j default).agents_out.1.left +
            (∑ j ∈ Finset.range (S * S), (nodes2.getD j default).agents_out.1.top +
              ∑ j ∈ Finset.range (S * S), (nodes2.getD j default).agents_out.1.right)) =
        ∑ j ∈ Finset.range (S * S), slotSum (nodes2.getD j default).agents_out.1 := by
      rw [← Finset.sum_add_distrib, ← Finset.sum_add_distrib, ← Finset.sum_add_distrib]
      refine Finset.sum_congr rfl fun j _ => ?_
      rw [slotSum]
      omega
    have e5 : ∑ j ∈ Finset.range (S * S), slotSum (nodes2.getD j default).agents_out.1 =
        ∑ j ∈ Finset.range (S * S), (u.nodes.getD j default).red_agents := by
      refine Finset.sum_congr rfl fun j hj => ?_
      have hj2 := Finset.mem_range.mp hj
      rw [(hprops2 j hj2).2.2.2.1, hocc1r j hj2]
    have e6 : ∑ j ∈ Finset.range (S * S), (u.nodes.getD j default).red_agents =
        totRed u.nodes := by
      rw [totRed, list_sum_map_range Node.red_agents u.nodes, hlen]
    rw [e1, e2, e3, e4, e5, e6]
  have htotb : totBlue nodes3 = totBlue u.nodes := by
    have e1 : totBlue nodes3 =
        ∑ i ∈ Finset.range (S * S), (nodes3.getD i default).blue_agents := by
      rw [totBlue, list_sum_map_range Node.blue_agents nodes3, hlen3]
    have e2 : ∑ i ∈ Finset.range (S * S), (nodes3.getD i default).blue_agents =
        ∑ i ∈ Finset.range (S * S),
          ((nodes2.getD ((torusNbr S i).top) default).agents_out.2.bottom +
           (nodes2.getD ((torusNbr S i).right) default).agents_out.2.left +
           (nodes2.getD ((torusNbr S i).bottom) default).agents_out.2.top +
           (nodes2.getD ((torusNbr S i).left) default).agents_out.2.right) :=
      Finset.sum_congr rfl fun i hi => (hprops3 i (Finset.mem_range.mp hi)).2.2
    have e3 : ∑ i ∈ Finset.range (S * S),
          ((nodes2.getD ((torusNbr S i).top) default).agents_out.2.bottom +
           (nodes2.getD ((torusNbr S i).right) default).agents_out.2.left +
           (nodes2.getD ((torusNbr S i).bottom) default).agents_out.2.top +
           (nodes2.getD ((torusNbr S i).left) default).agents_out.2.right) =
        ∑ j ∈ Finset.range (S * S), (nodes2.getD j default).agents_out.2.bottom +
          (∑ j ∈ Finset.range (S * S), (nodes2.getD j default).agents_out.2.left +
            (∑ j ∈ Finset.range (S * S), (nodes2.getD j default).agents_out.2.top +
              ∑ j ∈ Finset.range (S * S), (nodes2.getD j default).agents_out.2.right)) := by
      rw [Finset.sum_add_distrib, Finset.sum_add_distrib, Finset.sum_add_distrib]
      rw [sum_top_reindex S hS (fun j => (nodes2.getD j default).agents_out.2.bottom),
        sum_right_reindex S hS (fun j => (nodes2.getD j default).agents_out.2.left),
        sum_bottom_reindex S hS (fun j => (nodes2.getD j default).agents_out.2.top),
        sum_left_reindex S hS (fun j => (nodes2.getD j default).agents_out.2.right)]
      omega
    have e4 : ∑ j ∈ Finset.range (S * S), (nodes2.getD j default).agents_out.2.bottom +
          (∑ j ∈ Finset.range (S * S), (nodes2.getD j default).agents_out.2.left +
            (∑ j ∈ Finset.range (S * S), (nodes2.getD j default).agents_out.2.top +
              ∑ j ∈ Finset.range (S * S), (nodes2.getD j default).agents_out.2.right)) =
        ∑ j ∈ Finset.range (S * S), slotSum (nodes2.getD j default).agents_out.2 := by
      rw [← Finset.sum_add_distrib, ← Finset.sum_add_distrib, ← Finset.sum_add_distrib]
      refine Finset.sum_congr rfl fun j _ => ?_
      rw [slotSum]
      omega
    have e5 : ∑ j ∈ Finset.range (S * S), slotSum (nodes2.getD j default).agents_out.2 =
        ∑ j ∈ Finset.range (S * S), (u.nodes.getD j default).blue_agents := by
      refine Finset.sum_congr rfl fun j hj => ?_
      have hj2 := Finset.mem_range.mp hj
      rw [(hprops2 j hj2).2.2.2.2, hocc1b j hj2]
    have e6 : ∑ j ∈ Finset.range (S * S), (u.nodes.getD j default).blue_agents =
        totBlue u.nodes := by
      rw [totBlue, list_sum_map_range Node.blue_agents u.nodes, hlen]
    rw [e1, e2, e3, e4, e5, e6]
  refine ⟨{ u with nodes := nodes3, iteration := u.iteration + 1 }, ?_,
    ⟨hS, hsize, hlen3, fun i hi => (hprops3 i hi).1⟩, htotr, htotb, rfl, rfl, rfl⟩
  rw [Universe2D.tick]
  rw [← hhp, ← hn1]
  simp only [hB, hC]

lemma add_agents_preserves (nd : Node) (a : ℕ) (s : AgentSpecies) :
    (nd.add_agents a s).neighbours = nd.neighbours ∧
      (nd.add_agents a s).index = nd.index := by
  cases s <;> exact ⟨rfl, rfl⟩

lemma seedLoop_preserve (size : ℕ) :
    ∀ (ids : List ℕ) (nodes : List Node) (p : Rand32) (nodes1 : List Node),
      seedLoop size ids nodes p = some nodes1 →
      nodes1.length = nodes.length ∧
      ∀ i, i < nodes.length →
        (nodes1.getD i default).neighbours = (nodes.getD i default).neighbours := by
  intro ids
  induction ids with
  | nil =>
    intro nodes p nodes1 h
    rw [seedLoop] at h
    cases h
    exact ⟨rfl, fun i _ => rfl⟩
  | cons id ids ih =>
    intro nodes p nodes1 h
    rw [seedLoop] at h
    split at h
    · cases h
    · rename_i ni p1 hr
      split at h
      · cases h
      · rename_i nd hg
        have hni : ni < nodes.length := by
          by_contra hc
          rw [List.getElem?_eq_none (by omega)] at hg
          cases hg
        rcases ih _ _ _ h with ⟨hlen, hnbs⟩
        constructor
        · rw [hlen, List.length_set]
        · intro i hi
          rw [hnbs i (by rw [List.length_set]; exact hi)]
          by_cases hie : i = ni
          · have hset : (nodes.set ni (nd.add_agents 1
                (if id % 2 = 0 then AgentSpecies.Red else AgentSpecies.Blue))).getD i default =
                nd.add_agents 1
                  (if id % 2 = 0 then AgentSpecies.Red else AgentSpecies.Blue) := by
              rw [hie, getD_of_lt _ _ default (by rw [List.length_set]; exact hni),
                List.getElem_set_self]
            rw [hset, (add_agents_preserves _ _ _).1]
            have hnd : nodes.getD i default = nd := by
              rw [hie, getD_of_lt _ _ default hni]
              have h2 := List.getElem?_eq_getElem hni
              rw [hg] at h2
              exact (Option.some.inj h2).symm
            rw [hnd]
          · rw [getD_of_lt _ _ default (by rw [List.length_set]; exact hi),
              List.getElem_set_ne (fun hc => hie hc.symm) _,
              ← getD_of_lt _ _ default hi]

lemma new_WF (S A : ℕ) (u : Universe2D) (hS : 1 ≤ S)
    (h : Universe2D.new S A = some u) :
    WF S u ∧ u.hyper_params = HyperParams.default ∧ u.iteration = 0 := by
  have hN : mapOpt (fun index => Node.new index (edgesList S)) (List.range (S * S)) =
      some ((List.range (S * S)).map (fun i =>
        { index := i, neighbours := torusNbr S i,
          graffiti := Species.new 0 0, push_strength := Species.new 0 0,
          blue_agents := 0, red_agents := 0,
          agents_out := (Neighbours.new 0 0 0 0, Neighbours.new 0 0 0 0) : Node })) := by
    refine mapOpt_eq_map _ _ _ ?_
    intro i hi
    rw [Node.new, lookup_edgesList S i (List.mem_range.mp hi)]
  rw [Universe2D.new] at h
  split at h
  · cases h
  · rename_i nodes0 hmap
    split at h
    · cases h
    · rename_i nodes1 hseed
      cases h
      have hn0 : nodes0 = (List.range (S * S)).map (fun i =>
          { index := i, neighbours := torusNbr S i,
            graffiti := Species.new 0 0, push_strength := Species.new 0 0,
            blue_agents := 0, red_agents := 0,
            agents_out := (Neighbours.new 0 0 0 0, Neighbours.new 0 0 0 0) : Node }) := by
        rw [hN] at hmap
        exact (Option.some.inj hmap).symm
      subst hn0
      rcases seedLoop_preserve S _ _ _ _ hseed with ⟨hlen, hnbs⟩
      refine ⟨⟨hS, rfl, by rw [hlen, List.length_map, List.length_range], ?_⟩, rfl, rfl⟩
      intro i hi
      have hi0 : i < ((List.range (S * S)).map (fun i =>
          { index := i, neighbours := torusNbr S i,
            graffiti := Species.new 0 0, push_strength := Species.new 0 0,
            blue_agents := 0, red_agents := 0,
            agents_out := (Neighbours.new 0 0 0 0, Neighbours.new 0 0 0 0) : Node })).length := by
        rw [List.length_map, List.length_range]
        exact hi
      rw [hnbs i hi0, getD_of_lt _ _ default hi0, List.getElem_map,
        List.getElem_range]

lemma tickN_spec (S : ℕ) :
    ∀ (t : ℕ) (u : Universe2D), WF S u →
      ∃ u1, Universe2D.tickN t u = some u1 ∧ WF S u1 ∧
        totRed u1.nodes = totRed u.nodes ∧ totBlue u1.nodes = totBlue u.nodes ∧
        u1.hyper_params = u.hyper_params := by
  intro t
  induction t with
  | zero => intro u h; exact ⟨u, rfl, h, rfl, rfl, rfl⟩
  | succ t ih =>
    intro u h
    rcases tick_spec S u h with ⟨u1, htick, hwf1, hr1, hb1, hhp1, _, _⟩
    rcases ih u1 hwf1 with ⟨u2, hrun, hwf2, hr2, hb2, hhp2⟩
    refine ⟨u2, ?_, hwf2, by rw [hr2, hr1], by rw [hb2, hb1], by rw [hhp2, hhp1]⟩
    rw [Universe2D.tickN, htick]
    exact hrun

lemma set_hyper_params_WF (S : ℕ) (u : Universe2D) (hp : HyperParams) (h : WF S u) :
    WF S (u.set_hyper_params hp) := h

/-- C1: Conservation.  For every grid size `S ≥ 1`, every initial agent count,
every hyperparameter setting and every number `t ≥ 0` of ticks, the per-species
occupancy totals after `t` ticks equal the totals at construction; every tick
succeeds (no agent is created, destroyed or double-counted, including at the
wrapped boundaries). -/
theorem conservation_over_ticks (S A t : ℕ) (hp : HyperParams) (u : Universe2D)
    (hS : 1 ≤ S) (hnew : Universe2D.new S A = some u) :
    ∃ u1, Universe2D.tickN t (u.set_hyper_params hp) = some u1 ∧
      totRed u1.nodes = totRed u.nodes ∧ totBlue u1.nodes = totBlue u.nodes := by
  rcases new_WF S A u hS hnew with ⟨hwf, _, _⟩
  rcases tickN_spec S t (u.set_hyper_params hp) (set_hyper_params_WF S u hp hwf)
    with ⟨u1, hrun, _, hr, hb, _⟩
  exact ⟨u1, hrun, hr, hb⟩

/-- Witness for C1 at the concrete input `S = 1`, `A = 0`, `t = 2`. -/
theorem conservation_over_ticks_witness :
    1 ≤ 1 ∧ Universe2D.new 1 0 = some universeOne ∧
    ∃ u1, Universe2D.tickN 2 (universeOne.set_hyper_params HyperParams.default) =
        some u1 ∧
      totRed u1.nodes = totRed universeOne.nodes ∧
      totBlue u1.nodes = totBlue universeOne.nodes :=
  ⟨le_refl 1, rfl,
    conservation_over_ticks 1 0 2 HyperParams.default universeOne (le_refl 1) rfl⟩

/-- C3: Phase A field update.  For every node and each species independently the
new field equals `lambda` times the previous field plus `gamma` times the node's
occupancy of that species, the new weight equals `exp (-beta * new field)`, and
the update touches nothing else of the node (it reads no neighbour: it is a
function of the node and the hyperparameters alone). -/
theorem field_update_formula (nd : Node) (hp : HyperParams) :
    (nd.update_graffiti_and_push_strength hp).graffiti.red =
        hp.lambda * nd.graffiti.red + hp.gamma * (nd.red_agents : ℝ) ∧
    (nd.update_graffiti_and_push_strength hp).graffiti.blue =
        hp.lambda * nd.graffiti.blue + hp.gamma * (nd.blue_agents : ℝ) ∧
    (nd.update_graffiti_and_push_strength hp).push_strength.red =
        Real.exp (-hp.beta * (nd.update_graffiti_and_push_strength hp).graffiti.red) ∧
    (nd.update_graffiti_and_push_strength hp).push_strength.blue =
        Real.exp (-hp.beta * (nd.update_graffiti_and_push_strength hp).graffiti.blue) ∧
    (nd.update_graffiti_and_push_strength hp).red_agents = nd.red_agents ∧
    (nd.update_graffiti_and_push_strength hp).blue_agents = nd.blue_agents ∧
    (nd.update_graffiti_and_push_strength hp).neighbours = nd.neighbours := by
  refine ⟨?_, ?_, rfl, rfl, rfl, rfl, rfl⟩
  · rw [update_graffiti_red]; ring
  · rw [update_graffiti_blue]; ring

/-- C8: Weight monotonicity.  For every `beta > 0` and fields `0 ≤ f1 < f2` the
push strength at `f2` is strictly below the push strength at `f1`. -/
theorem weight_strict_antitone (beta f1 f2 : ℝ) (hb : 0 < beta) (h1 : 0 ≤ f1)
    (h12 : f1 < f2) : pushStrengthOf beta f2 < pushStrengthOf beta f1 := by
  rw [pushStrengthOf, pushStrengthOf]
  refine Real.exp_lt_exp.mpr ?_
  have := mul_lt_mul_of_pos_left h12 hb
  linarith

/-- Witness for C8 at `beta = 1`, `f1 = 0`, `f2 = 1`. -/
theorem weight_strict_antitone_witness :
    (0 : ℝ) < 1 ∧ (0 : ℝ) ≤ 0 ∧ (0 : ℝ) < 1 ∧
      pushStrengthOf 1 1 < pushStrengthOf 1 0 :=
  ⟨one_pos, le_refl 0, one_pos, weight_strict_antitone 1 0 1 one_pos (le_refl 0) one_pos⟩

/-- C10: the accessor `Node::get_agents_with_species` returns the occupancy of
the opposite species: querying Blue yields `red_agents`, querying Red yields
`blue_agents`, so a per-species total computed through the accessor is the other
species' total. -/
theorem get_agents_with_species_swapped (nd : Node) (nodes : List Node) :
    nd.get_agents_with_species AgentSpecies.Blue = nd.red_agents ∧
    nd.get_agents_with_species AgentSpecies.Red = nd.blue_agents ∧
    (nodes.map (fun n => n.get_agents_with_species AgentSpecies.Blue)).sum =
      totRed nodes ∧
    (nodes.map (fun n => n.get_agents_with_species AgentSpecies.Red)).sum =
      totBlue nodes :=
  ⟨rfl, rfl, rfl, rfl⟩

/-- C6: Topology.  For every `S ≥ 1` and cell `(x, y)` of the `S × S` torus, the
edge map built by `Universe2D::new` holds a record with exactly 4 slots in the
fixed iteration order top, right, bottom, left, computed by wraparound modular
arithmetic; cell `(0,0)`'s top neighbour is cell `(S-1, 0)` (flat index
`(S-1)*S`), all neighbour indices are in range, and for `S = 1` every neighbour
is the cell itself. -/
theorem torus_topology (S x y : ℕ) (hS : 1 ≤ S) (hx : x < S) (hy : y < S) :
    ∃ nb, (edgesList S).lookup (y * S + x) = some nb ∧
      nb.toList = [(y + S - 1) % S * S + x, y * S + (x + 1) % S,
        (y + 1) % S * S + x, y * S + (x + S - 1) % S] ∧
      nb.size = 4 ∧
      (∀ j ∈ nb.toList, j < S * S) ∧
      (x = 0 → y = 0 → nb.top = (S - 1) * S) ∧
      (S = 1 → nb.toList = [y * S + x, y * S + x, y * S + x, y * S + x]) := by
  have hi : y * S + x < S * S := cellBound S y x hy hx
  rcases divmod_cell S y x hS hx with ⟨hd, hm⟩
  rcases torusNbr_lt S (y * S + x) hS hi with ⟨hbt, hbr, hbb, hbl⟩
  refine ⟨torusNbr S (y * S + x), lookup_edgesList S _ hi, ?_, rfl, ?_, ?_, ?_⟩
  · simp only [torusNbr, Neighbours.new, Neighbours.toList]
    rw [hd, hm]
  · intro j hj
    simp only [Neighbours.toList, List.mem_cons, List.not_mem_nil, or_false] at hj
    rcases hj with rfl | rfl | rfl | rfl
    · exact hbt
    · exact hbr
    · exact hbb
    · exact hbl
  · intro hx0 hy0
    subst hx0; subst hy0
    simp only [torusNbr, Neighbours.new]
    rw [Nat.zero_mul, Nat.add_zero, Nat.zero_div, Nat.zero_mod, Nat.zero_add,
      Nat.mod_eq_of_lt (by omega : S - 1 < S), Nat.add_zero]
  · intro hS1
    subst hS1
    have hx0 : x = 0 := by omega
    have hy0 : y = 0 := by omega
    subst hx0; subst hy0
    decide

/-- Witness for C6 at the concrete input `S = 4`, `(x, y) = (0, 0)`. -/
theorem torus_topology_witness :
    1 ≤ 4 ∧ (0 : ℕ) < 4 ∧
    ∃ nb, (edgesList 4).lookup (0 * 4 + 0) = some nb ∧
      nb.toList = [(0 + 4 - 1) % 4 * 4 + 0, 0 * 4 + (0 + 1) % 4,
        (0 + 1) % 4 * 4 + 0, 0 * 4 + (0 + 4 - 1) % 4] ∧
      nb.size = 4 ∧
      (∀ j ∈ nb.toList, j < 4 * 4) ∧
      ((0 : ℕ) = 0 → (0 : ℕ) = 0 → nb.top = (4 - 1) * 4) ∧
      ((4 : ℕ) = 1 → nb.toList = [0 * 4 + 0, 0 * 4 + 0, 0 * 4 + 0, 0 * 4 + 0]) :=
  ⟨by decide, by decide,
    torus_topology 4 0 0 (by decide) (by decide) (by decide)⟩

/-- C7: Phase C inflow replacement.  On any torus-shaped node list, every node's
`move_agents_in` succeeds and fully replaces its per-species occupancy with the
sum of the four reverse slots of its neighbours' outflow buffers (top
neighbour's bottom slot, right neighbour's left slot, bottom neighbour's top
slot, left neighbour's right slot); and globally, for every `S ≥ 1` (including
the degenerate `S = 1` and `S = 2`), those reverse reads consume each outflow
slot of each node exactly once: the inflow total equals the total over all
nodes of all four outflow slots, per species. -/
theorem inflow_replacement (S : ℕ) (nodes : List Node) (hS : 1 ≤ S)
    (hlen : nodes.length = S * S)
    (hnb : ∀ i, i < S * S → (nodes.getD i default).neighbours = torusNbr S i) :
    (∀ i, i < S * S →
      (nodes.getD i default).move_agents_in nodes = some
        { nodes.getD i default with
          red_agents :=
            (nodes.getD (torusNbr S i).top default).agents_out.1.bottom +
            (nodes.getD (torusNbr S i).right default).agents_out.1.left +
            (nodes.getD (torusNbr S i).bottom default).agents_out.1.top +
            (nodes.getD (torusNbr S i).left default).agents_out.1.right,
          blue_agents :=
            (nodes.getD (torusNbr S i).top default).agents_out.2.bottom +
            (nodes.getD (torusNbr S i).right default).agents_out.2.left +
            (nodes.getD (torusNbr S i).bottom default).agents_out.2.top +
            (nodes.getD (torusNbr S i).left default).agents_out.2.right }) ∧
    (∑ i ∈ Finset.range (S * S),
        ((nodes.getD (torusNbr S i).top default).agents_out.1.bottom +
         (nodes.getD (torusNbr S i).right default).agents_out.1.left +
         (nodes.getD (torusNbr S i).bottom default).agents_out.1.top +
         (nodes.getD (torusNbr S i).left default).agents_out.1.right) =
      ∑ j ∈ Finset.range (S * S), slotSum (nodes.getD j default).agents_out.1) ∧
    (∑ i ∈ Finset.range (S * S),
        ((nodes.getD (torusNbr S i).top default).agents_out.2.bottom +
         (nodes.getD (torusNbr S i).right default).agents_out.2.left +
         (nodes.getD (torusNbr S i).bottom default).agents_out.2.top +
         (nodes.getD (torusNbr S i).left default).agents_out.2.right) =
      ∑ j ∈ Finset.range (S * S), slotSum (nodes.getD j default).agents_out.2) := by
  refine ⟨?_, ?_, ?_⟩
  · intro i hi
    have hnbi := hnb i hi
    rcases torusNbr_lt S i hS hi with ⟨h1, h2, h3, h4⟩
    have ht : (nodes.getD i default).neighbours.top < nodes.length := by rw [hnbi]; omega
    have hr : (nodes.getD i default).neighbours.right < nodes.length := by rw [hnbi]; omega
    have hb : (nodes.getD i default).neighbours.bottom < nodes.length := by rw [hnbi]; omega
    have hl : (nodes.getD i default).neighbours.left < nodes.length := by rw [hnbi]; omega
    rw [move_agents_in_spec nodes _ ht hr hb hl]
    rw [← getD_of_lt _ _ default ht, ← getD_of_lt _ _ default hr,
      ← getD_of_lt _ _ default hb, ← getD_of_lt _ _ default hl]
    have hnbi2 : (nodes[i]?.getD default).neighbours = torusNbr S i := by
      rw [← List.getD_eq_getElem?_getD]
      exact hnbi
    simp [hnbi2]
  · rw [Finset.sum_add_distrib, Finset.sum_add_distrib, Finset.sum_add_distrib]
    rw [sum_top_reindex S hS (fun j => (nodes.getD j default).agents_out.1.bottom),
      sum_right_reindex S hS (fun j => (nodes.getD j default).agents_out.1.left),
      sum_bottom_reindex S hS (fun j => (nodes.getD j default).agents_out.1.top),
      sum_left_reindex S hS (fun j => (nodes.getD j default).agents_out.1.right)]
    rw [← Finset.sum_add_distrib, ← Finset.sum_add_distrib, ← Finset.sum_add_distrib]
    refine Finset.sum_congr rfl fun j _ => ?_
    rw [slotSum]
    omega
  · rw [Finset.sum_add_distrib, Finset.sum_add_distrib, Finset.sum_add_distrib]
    rw [sum_top_reindex S hS (fun j => (nodes.getD j default).agents_out.2.bottom),
      sum_right_reindex S hS (fun j => (nodes.getD j default).agents_out.2.left),
      sum_bottom_reindex S hS (fun j => (nodes.getD j default).agents_out.2.top),
      sum_left_reindex S hS (fun j => (nodes.getD j default).agents_out.2.right)]
    rw [← Finset.sum_add_distrib, ← Finset.sum_add_distrib, ← Finset.sum_add_distrib]
    refine Finset.sum_congr rfl fun j _ => ?_
    rw [slotSum]
    omega

/-- Witness for C7 at the concrete input `S = 1` with the node list of
`Universe2D::new 1 0`. -/
theorem inflow_replacement_witness :
    1 ≤ 1 ∧ universeOne.nodes.length = 1 * 1 ∧
    (∀ i, i < 1 * 1 →
      (universeOne.nodes.getD i default).neighbours = torusNbr 1 i) ∧
    ((∀ i, i < 1 * 1 →
      (universeOne.nodes.getD i default).move_agents_in universeOne.nodes = some
        { universeOne.nodes.getD i default with
          red_agents :=
            (universeOne.nodes.getD (torusNbr 1 i).top default).agents_out.1.bottom +
            (universeOne.nodes.getD (torusNbr 1 i).right default).agents_out.1.left +
            (universeOne.nodes.getD (torusNbr 1 i).bottom default).agents_out.1.top +
            (universeOne.nodes.getD (torusNbr 1 i).left default).agents_out.1.right,
          blue_agents :=
            (universeOne.nodes.getD (torusNbr 1 i).top default).agents_out.2.bottom +
            (universeOne.nodes.getD (torusNbr 1 i).right default).agents_out.2.left +
            (universeOne.nodes.getD (torusNbr 1 i).bottom default).agents_out.2.top +
            (universeOne.nodes.getD (torusNbr 1 i).left default).agents_out.2.right }) ∧
    (∑ i ∈ Finset.range (1 * 1),
        ((universeOne.nodes.getD (torusNbr 1 i).top default).agents_out.1.bottom +
         (universeOne.nodes.getD (torusNbr 1 i).right default).agents_out.1.left +
         (universeOne.nodes.getD (torusNbr 1 i).bottom default).agents_out.1.top +
         (universeOne.nodes.getD (torusNbr 1 i).left default).agents_out.1.right) =
      ∑ j ∈ Finset.range (1 * 1), slotSum (universeOne.nodes.getD j default).agents_out.1) ∧
    (∑ i ∈ Finset.range (1 * 1),
        ((universeOne.nodes.getD (torusNbr 1 i).top default).agents_out.2.bottom +
         (universeOne.nodes.getD (torusNbr 1 i).right default).agents_out.2.left +
         (universeOne.nodes.getD (torusNbr 1 i).bottom default).agents_out.2.top +
         (universeOne.nodes.getD (torusNbr 1 i).left default).agents_out.2.right) =
      ∑ j ∈ Finset.range (1 * 1), slotSum (universeOne.nodes.getD j default).agents_out.2)) := by
  have hnb : ∀ i, i < 1 * 1 →
      (universeOne.nodes.getD i default).neighbours = torusNbr 1 i := by
    intro i hi
    interval_cases i
    rfl
  exact ⟨le_refl 1, rfl, hnb, inflow_replacement 1 universeOne.nodes (le_refl 1) rfl hnb⟩

lemma add_agent_zero_ws (out : Neighbours) (p : Rand32) :
    out.add_agent_to_random_cell [0, 0, 0, 0] 0 p =
      some ({ out with top := out.top + 1 }, (Rand32.rand_float p).2) := by
  have hc : (0 : ℝ) + 0 ≥ ((Rand32.rand_float p).1 : ℝ) * 0 := by
    rw [mul_zero]
    norm_num
  have hsel : selectIndexGo (((Rand32.rand_float p).1 : ℝ) * 0) [0, 0, 0, 0] 0 0 =
      some 0 := by
    rw [selectIndexGo, if_pos hc]
  rw [Neighbours.add_agent_to_random_cell]
  simp only [hsel]

lemma agentsLoop_zero_ws :
    ∀ (count : ℕ) (out : Neighbours) (p : Rand32),
      (agentsLoop [0, 0, 0, 0] 0 count out p).map Prod.fst =
        some { out with top := out.top + count } := by
  intro count
  induction count with
  | zero => intro out p; rfl
  | succ c ih =>
    intro out p
    rw [agentsLoop]
    simp only [add_agent_zero_ws]
    rw [ih { out with top := out.top + 1 } (Rand32.rand_float p).2]
    have h2 : out.top + 1 + c = out.top + (c + 1) := by omega
    simp [h2]

/-- C4 counterexample: with all four neighbour weights zero (total `T = 0`),
one hundred consecutive agents are all assigned to the top slot — the outflow
is `(100, 0, 0, 0)`, not uniform over the four slots, and the sampler
systematically prefers the top slot. -/
theorem uniform_fallback_counterexample :
    (agentsLoop [0, 0, 0, 0] 0 100 (Neighbours.new 0 0 0 0) (Rand32.new 12345)).map
        Prod.fst =
      some { top := 100, bottom := 0, left := 0, right := 0, size := 4 } := by
  rw [agentsLoop_zero_ws 100 (Neighbours.new 0 0 0 0) (Rand32.new 12345)]
  rfl

/-- C4 amended: whenever the total of the four neighbour push weights is exactly
zero (all four weights zero), `add_agent_to_random_cell` does not divide by zero
and does not fail, but it does not fall back to a uniform choice either: the
drawn value `r = rand_float() * 0 = 0` makes the first cumulative sum match
immediately, so every agent is deterministically assigned to the first slot
(top). -/
theorem uniform_fallback_amended (out : Neighbours) (p : Rand32) :
    out.add_agent_to_random_cell [0, 0, 0, 0] 0 p =
      some ({ out with top := out.top + 1 }, (Rand32.rand_float p).2) :=
  add_agent_zero_ws out p

/-- C9 counterexample: constructing a universe with grid size zero (and zero
agents) does not fail fast with a synchronous error: it succeeds and returns an
empty universe. -/
theorem construction_no_validation_counterexample :
    Universe2D.new 0 0 =
      some { size := 0, nodes := [], iteration := 0,
             hyper_params := HyperParams.default } := rfl

/-- C9 amended: `Universe2D::new` and `HyperParams::new` perform no argument
validation.  Grid size zero with zero agents succeeds with an empty universe;
grid size zero with a positive agent count aborts only at agent placement (an
out-of-bounds indexing panic, modelled `none`), not with a synchronous
validation error; and `HyperParams::new` accepts arbitrary, including negative,
values unchecked. -/
theorem construction_no_validation_amended :
    Universe2D.new 0 0 =
      some { size := 0, nodes := [], iteration := 0,
             hyper_params := HyperParams.default } ∧
    Universe2D.new 0 1 = none ∧
    ∀ g l b : ℝ, HyperParams.new g l b = { gamma := g, lambda := l, beta := b } :=
  ⟨rfl, rfl, fun g l b => rfl⟩

lemma cumul_cons (w : ℝ) (rest : List ℝ) (m : ℕ) :
    cumul (w :: rest) (m + 1) = w + cumul rest m := by
  rw [cumul, cumul, List.take_succ_cons, List.sum_cons]

lemma selectIndexGo_eq_find (r : ℝ) :
    ∀ (ws : List ℝ) (sum : ℝ) (i : ℕ),
      selectIndexGo r ws sum i =
        ((List.range ws.length).find?
            (fun k => decide (sum + cumul ws (k + 1) ≥ r))).map (fun k => k + i) := by
  intro ws
  induction ws with
  | nil => intro sum i; rfl
  | cons w rest ih =>
    intro sum i
    rw [selectIndexGo, List.length_cons, List.range_succ_eq_map]
    by_cases hc : sum + w ≥ r
    · rw [if_pos hc, List.find?_cons_of_pos]
      · simp
      · rw [decide_eq_true_eq, cumul_cons, cumul, List.take_zero, List.sum_nil,
          add_zero]
        exact hc
    · rw [if_neg hc, List.find?_cons_of_neg]
      · rw [List.find?_map, Option.map_map, ih (sum + w) (i + 1)]
        have hpe : ((fun k => decide (sum + cumul (w :: rest) (k + 1) ≥ r)) ∘ Nat.succ) =
            (fun k => decide (sum + w + cumul rest (k + 1) ≥ r)) := by
          funext k
          simp only [Function.comp_apply]
          refine decide_eq_decide.mpr ?_
          rw [cumul_cons, ← add_assoc]
        rw [hpe]
        have hfe : ((fun k => k + i) ∘ Nat.succ) = (fun k => k + (i + 1)) := by
          funext k
          simp only [Function.comp_apply]
          omega
        rw [hfe]
      · rw [decide_eq_true_eq, cumul_cons, cumul, List.take_zero, List.sum_nil,
          add_zero]
        exact hc

lemma selectIndexGo_eq_smallest (r : ℝ) (ws : List ℝ) :
    selectIndexGo r ws 0 0 = smallestSlot ws r := by
  rw [selectIndexGo_eq_find r ws 0 0, smallestSlot]
  have hpe : (fun k => decide ((0 : ℝ) + cumul ws (k + 1) ≥ r)) =
      (fun k => decide (cumul ws (k + 1) ≥ r)) := by
    funext k
    refine decide_eq_decide.mpr ?_
    rw [zero_add]
  rw [hpe]
  simp

lemma findRange_first (p : ℕ → Bool) :
    ∀ (N k : ℕ), (List.range N).find? p = some k → p k = true ∧ ∀ j < k, p j = false := by
  intro N
  induction N with
  | zero => intro k h; cases h
  | succ N ih =>
    intro k h
    rw [List.range_succ, List.find?_append] at h
    rcases hfirst : (List.range N).find? p with _ | k0
    · rw [hfirst] at h
      simp only [Option.or] at h
      have hk : k = N := by
        rcases hsingle : List.find? p [N] with _ | k1
        · rw [hsingle] at h; cases h
        · rw [hsingle] at h
          cases h
          have := List.mem_of_find?_eq_some hsingle
          simp at this
          omega
      subst hk
      constructor
      · have : k ∈ [k] ∧ p k = true := by
          have h2 := h
          rcases hsingle : List.find? p [k] with _ | k1
          · rw [hsingle] at h2; cases h2
          · rw [hsingle] at h2
            cases h2
            exact ⟨List.mem_of_find?_eq_some hsingle, List.find?_some hsingle⟩
        exact this.2
      · intro j hj
        have hmem : j ∈ List.range k := List.mem_range.mpr hj
        have := List.find?_eq_none.mp hfirst j hmem
        exact Bool.not_eq_true _ ▸ (by simpa using this)
    · rw [hfirst] at h
      simp only [Option.or] at h
      cases Option.some.inj h
      exact ih _ hfirst

lemma smallestSlot_first (ws : List ℝ) (r : ℝ) (k : ℕ)
    (h : smallestSlot ws r = some k) :
    cumul ws (k + 1) ≥ r ∧ ∀ j < k, cumul ws (j + 1) < r := by
  rw [smallestSlot] at h
  rcases findRange_first _ _ _ h with ⟨hk, hlt⟩
  constructor
  · exact of_decide_eq_true hk
  · intro j hj
    have := of_decide_eq_false (hlt j hj)
    exact lt_of_not_ge this

lemma agentsLoop_eq_spec (ws : List ℝ) (total : ℝ)
    (htot : total = cumul ws ws.length) :
    ∀ (count : ℕ) (out : Neighbours) (p : Rand32),
      agentsLoop ws total count out p = specDistribute ws count out p := by
  intro count
  induction count with
  | zero => intro out p; rfl
  | succ c ih =>
    intro out p
    rw [agentsLoop, specDistribute, Neighbours.add_agent_to_random_cell]
    rcases hpf : p.rand_float with ⟨u, p1⟩
    have hr : (u : ℝ) * total = (u : ℝ) * cumul ws ws.length := by rw [htot]
    simp only [hr, selectIndexGo_eq_smallest]
    rcases hsel : smallestSlot ws ((u : ℝ) * cumul ws ws.length) with _ | j
    · simp only [hsel, applySlot]
      exact ih out p1
    · match j with
      | 0 =>
        simp only [hsel, applySlot]
        exact ih _ _
      | 1 =>
        simp only [hsel, applySlot]
        exact ih _ _
      | 2 =>
        simp only [hsel, applySlot]
        exact ih _ _
      | 3 =>
        simp only [hsel, applySlot]
        exact ih _ _
      | j + 4 =>
        simp only [hsel, applySlot]

lemma move_agents_out_eq_spec (nodes : List Node) (n : Node) (gs : ℕ) :
    n.move_agents_out nodes gs = specPhaseB nodes n := by
  rw [Node.move_agents_out, specPhaseB]
  rcases nodes[n.neighbours.top]? with _ | nt
  · rfl
  rcases nodes[n.neighbours.right]? with _ | nr
  · rfl
  rcases nodes[n.neighbours.bottom]? with _ | nb
  · rfl
  rcases nodes[n.neighbours.left]? with _ | nl
  · rfl
  have hblue : agentsLoop
      [nt.get_push_strength AgentSpecies.Blue, nr.get_push_strength AgentSpecies.Blue,
        nb.get_push_strength AgentSpecies.Blue, nl.get_push_strength AgentSpecies.Blue]
      (nt.get_push_strength AgentSpecies.Blue + nr.get_push_strength AgentSpecies.Blue +
        nb.get_push_strength AgentSpecies.Blue + nl.get_push_strength AgentSpecies.Blue)
      n.red_agents (Neighbours.new 0 0 0 0) n.get_prng =
      specDistribute [nt.push_strength.blue, nr.push_strength.blue,
        nb.push_strength.blue, nl.push_strength.blue] n.red_agents
        (Neighbours.new 0 0 0 0) n.get_prng := by
    rw [agentsLoop_eq_spec _ _ (by simp [cumul]; ring) n.red_agents
      (Neighbours.new 0 0 0 0) n.get_prng]
    rfl
  simp only [hblue]
  rcases hd1 : specDistribute [nt.push_strength.blue, nr.push_strength.blue,
      nb.push_strength.blue, nl.push_strength.blue] n.red_agents
      (Neighbours.new 0 0 0 0) n.get_prng with _ | rp
  · simp only [hd1]
  · rcases rp with ⟨red_agents_out, p1⟩
    simp only [hd1]
    have hred : agentsLoop
        [nt.get_push_strength AgentSpecies.Red, nr.get_push_strength AgentSpecies.Red,
          nb.get_push_strength AgentSpecies.Red, nl.get_push_strength AgentSpecies.Red]
        (nt.get_push_strength AgentSpecies.Red + nr.get_push_strength AgentSpecies.Red +
          nb.get_push_strength AgentSpecies.Red + nl.get_push_strength AgentSpecies.Red)
        n.blue_agents (Neighbours.new 0 0 0 0) p1 =
        specDistribute [nt.push_strength.red, nr.push_strength.red,
          nb.push_strength.red, nl.push_strength.red] n.blue_agents
          (Neighbours.new 0 0 0 0) p1 := by
      rw [agentsLoop_eq_spec _ _ (by simp [cumul]; ring) n.blue_agents
        (Neighbours.new 0 0 0 0) p1]
      rfl
    rw [hred]

lemma specPhaseB_preserves (nodes : List Node) (n nd1 : Node)
    (h : specPhaseB nodes n = some nd1) :
    nd1.red_agents = n.red_agents ∧ nd1.blue_agents = n.blue_agents ∧
      nd1.graffiti = n.graffiti ∧ nd1.push_strength = n.push_strength ∧
      nd1.index = n.index ∧ nd1.neighbours = n.neighbours := by
  rw [specPhaseB] at h
  split at h
  · split at h
    · cases h
    · split at h
      · cases h
      · cases h
        exact ⟨rfl, rfl, rfl, rfl, rfl, rfl⟩
  · cases h

/-- C2: Phase B outflow sampling.  `move_agents_out` coincides exactly with the
spec-modelled sampler `specPhaseB`: the node's red agents are distributed over
the four neighbour slots in the fixed order top, right, bottom, left against
the neighbours' blue push strengths and the blue agents against the red ones
(opposite species); each agent draws `r = u * T` from the node's local
deterministic stream (`u` a `rand_float` variate, `T` the weight total) and
takes the smallest slot whose cumulative weight sum `C[k]` reaches `r`;
occupancy, graffiti and push strengths are never mutated in this phase — only
the outflow buffers are written; and the chosen slot really is the smallest:
`C[k] ≥ r` holds at the chosen `k` and fails strictly at every earlier slot. -/
theorem phaseB_outflow_sampling (nodes : List Node) (n : Node) (gs : ℕ) :
    n.move_agents_out nodes gs = specPhaseB nodes n ∧
    (∀ nd1, n.move_agents_out nodes gs = some nd1 →
      nd1.red_agents = n.red_agents ∧ nd1.blue_agents = n.blue_agents ∧
      nd1.graffiti = n.graffiti ∧ nd1.push_strength = n.push_strength) ∧
    (∀ (ws : List ℝ) (r : ℝ) (k : ℕ), smallestSlot ws r = some k →
      cumul ws (k + 1) ≥ r ∧ ∀ j < k, cumul ws (j + 1) < r) := by
  refine ⟨move_agents_out_eq_spec nodes n gs, ?_, smallestSlot_first⟩
  intro nd1 h
  rw [move_agents_out_eq_spec nodes n gs] at h
  rcases specPhaseB_preserves nodes n nd1 h with ⟨h1, h2, h3, h4, _, _⟩
  exact ⟨h1, h2, h3, h4⟩

/-- Witness for C2 at the node list and single node of `Universe2D::new 1 0`. -/
theorem phaseB_outflow_sampling_witness :
    (universeOne.nodes.getD 0 default).move_agents_out universeOne.nodes 1 =
        specPhaseB universeOne.nodes (universeOne.nodes.getD 0 default) ∧
    (∀ nd1, (universeOne.nodes.getD 0 default).move_agents_out universeOne.nodes 1 =
        some nd1 →
      nd1.red_agents = (universeOne.nodes.getD 0 default).red_agents ∧
      nd1.blue_agents = (universeOne.nodes.getD 0 default).blue_agents ∧
      nd1.graffiti = (universeOne.nodes.getD 0 default).graffiti ∧
      nd1.push_strength = (universeOne.nodes.getD 0 default).push_strength) ∧
    (∀ (ws : List ℝ) (r : ℝ) (k : ℕ), smallestSlot ws r = some k →
      cumul ws (k + 1) ≥ r ∧ ∀ j < k, cumul ws (j + 1) < r) :=
  phaseB_outflow_sampling universeOne.nodes (universeOne.nodes.getD 0 default) 1

lemma mapOpt_length {α β : Type} (f : α → Option β) :
    ∀ (l : List α) (l1 : List β), mapOpt f l = some l1 → l1.length = l.length := by
  intro l
  induction l with
  | nil => intro l1 h; cases h; rfl
  | cons a as ih =>
    intro l1 h
    rw [mapOpt] at h
    rcases hfa : f a with _ | b
    · rw [hfa] at h; cases h
    · rw [hfa] at h
      rcases hrest : mapOpt f as with _ | bs
      · rw [hrest] at h; cases h
      · rw [hrest] at h
        cases h
        rw [List.length_cons, List.length_cons, ih bs hrest]

lemma seqPhase_fail {α : Type} [Inhabited α] (f : α → Option α) (init : List α) :
    ∀ (order : List ℕ) (acc : List α) (j : ℕ), j ∈ order → j < init.length →
      f (init.getD j default) = none → (∀ i ∈ order, i < init.length) →
      seqPhase f init order acc = none := by
  intro order
  induction order with
  | nil => intro acc j hj; simp at hj
  | cons i rest ih =>
    intro acc j hj hjlen hfj hbound
    have hi : i < init.length := hbound i (List.mem_cons_self i rest)
    rw [seqPhase, List.getElem?_eq_getElem hi, ← getD_of_lt init i default hi]
    show (match f (init.getD i default) with
      | none => none
      | some b => seqPhase f init rest (acc.set i b)) = none
    rcases List.mem_cons.mp hj with hji | hjr
    · rw [hji] at hfj
      simp only [hfj]
    · rcases hfi : f (init.getD i default) with _ | b
      · simp only [hfi]
      · simp only [hfi]
        exact ih (acc.set i b) j hjr hjlen hfj
          (fun m hm => hbound m (List.mem_cons_of_mem i hm))

lemma seqPhase_ok {α : Type} [Inhabited α] (f : α → Option α) (init : List α) :
    ∀ (order : List ℕ) (acc : List α),
      order.Nodup → (∀ i ∈ order, i < init.length) → acc.length = init.length →
      (∀ j ∈ order, (f (init.getD j default)).isSome) →
      ∃ res, seqPhase f init order acc = some res ∧ res.length = acc.length ∧
        ∀ k, k < init.length →
          res.getD k default =
            if k ∈ order then (f (init.getD k default)).getD default
            else acc.getD k default := by
  intro order
  induction order with
  | nil =>
    intro acc _ _ _ _
    refine ⟨acc, rfl, rfl, fun k _ => ?_⟩
    rw [if_neg (List.not_mem_nil k)]
  | cons i rest ih =>
    intro acc hnd hbound hlen hsome
    have hi : i < init.length := hbound i (List.mem_cons_self i rest)
    obtain ⟨b, hb⟩ := Option.isSome_iff_exists.mp (hsome i (List.mem_cons_self i rest))
    have hstep : seqPhase f init (i :: rest) acc = seqPhase f init rest (acc.set i b) := by
      rw [seqPhase, List.getElem?_eq_getElem hi, ← getD_of_lt init i default hi]
      show (match f (init.getD i default) with
        | none => none
        | some b2 => seqPhase f init rest (acc.set i b2)) =
        seqPhase f init rest (acc.set i b)
      simp only [hb]
    rw [hstep]
    rcases ih (acc.set i b) (List.nodup_cons.mp hnd).2
        (fun m hm => hbound m (List.mem_cons_of_mem i hm))
        (by rw [List.length_set]; exact hlen)
        (fun m hm => hsome m (List.mem_cons_of_mem i hm)) with
      ⟨res, hrun, hlenr, hchar⟩
    refine ⟨res, hrun, by rw [hlenr, List.length_set], ?_⟩
    intro k hk
    rw [hchar k hk]
    by_cases hkr : k ∈ rest
    · rw [if_pos hkr, if_pos (List.mem_cons_of_mem i hkr)]
    · by_cases hki : k = i
      · have hkacc : k < acc.length := by omega
        have h1 : (acc.set i b).getD k default = b := by
          rw [hki, getD_of_lt _ _ _ (by rw [List.length_set]; omega),
            List.getElem_set_self]
        have h2 : k ∈ i :: rest := by rw [hki]; exact List.mem_cons_self i rest
        rw [if_neg hkr, if_pos h2, h1, hki, hb]
        rfl
      · have hmem : ¬ k ∈ i :: rest := by
          rw [List.mem_cons]
          push_neg
          exact ⟨hki, hkr⟩
        rw [if_neg hkr, if_neg hmem]
        by_cases hkacc : k < acc.length
        · rw [getD_of_lt _ _ _ (by rw [List.length_set]; omega),
            List.getElem_set_ne (fun hc => hki hc.symm) _,
            ← getD_of_lt _ _ default hkacc]
        · rw [List.getD_eq_getElem?_getD, List.getD_eq_getElem?_getD,
            List.getElem?_eq_none (by rw [List.length_set]; omega),
            List.getElem?_eq_none (by omega)]

lemma seqPhase_perm {α : Type} [Inhabited α] (f : α → Option α) (init : List α)
    (order : List ℕ) (hperm : order.Perm (List.range init.length)) :
    seqPhase f init order init = mapOpt f init := by
  have hmem : ∀ j, j ∈ order ↔ j < init.length := fun j => by
    rw [hperm.mem_iff, List.mem_range]
  have hnd : order.Nodup := hperm.nodup_iff.mpr (List.nodup_range _)
  by_cases hall : ∀ a ∈ init, (f a).isSome
  · rcases seqPhase_ok f init order init hnd (fun i hi => (hmem i).mp hi) rfl
        (fun j hj => by
          have hjl := (hmem j).mp hj
          rw [getD_of_lt _ _ _ hjl]
          exact hall _ (List.getElem_mem hjl)) with ⟨res, hrun, hlenr, hchar⟩
    rw [hrun, mapOpt_eq_map_getD f init hall]
    congr 1
    refine List.ext_getElem (by rw [hlenr, List.length_map]) ?_
    intro k h1 h2
    have hkinit : k < init.length := by
      rw [List.length_map] at h2
      exact h2
    have hc := hchar k hkinit
    rw [if_pos ((hmem k).mpr hkinit)] at hc
    rw [← getD_of_lt res k default h1, hc, List.getElem_map,
      ← getD_of_lt init k default hkinit]
  · push_neg at hall
    obtain ⟨a, ha, hfa⟩ := hall
    have hfa2 : f a = none := Option.not_isSome_iff_eq_none.mp hfa
    rw [mapOpt_none f init ⟨a, ha, hfa2⟩]
    rcases List.mem_iff_getElem.mp ha with ⟨j, hj, hja⟩
    exact seqPhase_fail f init order init j ((hmem j).mpr hj) hj
      (by rw [getD_of_lt _ _ _ hj, hja]; exact hfa2)
      (fun i hi => (hmem i).mp hi)

lemma tickSeq_eq_tick (u : Universe2D) (o1 o2 o3 : List ℕ)
    (h1 : o1.Perm (List.range u.nodes.length))
    (h2 : o2.Perm (List.range u.nodes.length))
    (h3 : o3.Perm (List.range u.nodes.length)) :
    u.tickSeq o1 o2 o3 = u.tick := by
  rw [Universe2D.tickSeq, Universe2D.tick]
  have hA : seqPhase (fun node => some (node.update_graffiti_and_push_strength
      u.hyper_params)) u.nodes o1 u.nodes =
      some (u.nodes.map (fun node => node.update_graffiti_and_push_strength
        u.hyper_params)) := by
    rw [seqPhase_perm _ _ o1 h1]
    exact mapOpt_eq_map _ _ _ (fun a _ => rfl)
  simp only [hA]
  have hB : seqPhase (fun node => node.move_agents_out
        (u.nodes.map (fun node => node.update_graffiti_and_push_strength
          u.hyper_params)) u.size)
      (u.nodes.map (fun node => node.update_graffiti_and_push_strength
        u.hyper_params)) o2
      (u.nodes.map (fun node => node.update_graffiti_and_push_strength
        u.hyper_params)) =
      mapOpt (fun node => node.move_agents_out
        (u.nodes.map (fun node => node.update_graffiti_and_push_strength
          u.hyper_params)) u.size)
      (u.nodes.map (fun node => node.update_graffiti_and_push_strength
        u.hyper_params)) := by
    refine seqPhase_perm _ _ o2 ?_
    rw [List.length_map]
    exact h2
  simp only [hB]
  rcases hmB : mapOpt (fun node => node.move_agents_out
      (u.nodes.map (fun node => node.update_graffiti_and_push_strength
        u.hyper_params)) u.size)
      (u.nodes.map (fun node => node.update_graffiti_and_push_strength
        u.hyper_params)) with _ | nodes2
  · simp only [hmB]
  · simp only [hmB]
    have hlen2 : nodes2.length = u.nodes.length := by
      rw [mapOpt_length _ _ _ hmB, List.length_map]
    have hC : seqPhase (fun node => node.move_agents_in nodes2) nodes2 o3 nodes2 =
        mapOpt (fun node => node.move_agents_in nodes2) nodes2 := by
      refine seqPhase_perm _ _ o3 ?_
      rw [hlen2]
      exact h3
    simp only [hC]

lemma tickSeqN_eq_tickN (S : ℕ) (sched : ℕ → List ℕ × List ℕ × List ℕ)
    (hsched : ∀ k, (sched k).1.Perm (List.range (S * S)) ∧
      (sched k).2.1.Perm (List.range (S * S)) ∧
      (sched k).2.2.Perm (List.range (S * S))) :
    ∀ (t : ℕ) (u : Universe2D), WF S u →
      Universe2D.tickSeqN sched t u = Universe2D.tickN t u := by
  intro t
  induction t with
  | zero => intro u _; rfl
  | succ t ih =>
    intro u hwf
    have hlen : u.nodes.length = S * S := hwf.2.2.1
    have hp1 : (sched t).1.Perm (List.range u.nodes.length) := by
      rw [hlen]; exact (hsched t).1
    have hp2 : (sched t).2.1.Perm (List.range u.nodes.length) := by
      rw [hlen]; exact (hsched t).2.1
    have hp3 : (sched t).2.2.Perm (List.range u.nodes.length) := by
      rw [hlen]; exact (hsched t).2.2
    have heq := tickSeq_eq_tick u _ _ _ hp1 hp2 hp3
    rw [Universe2D.tickSeqN, Universe2D.tickN, heq]
    rcases htick : u.tick with _ | u1
    · rfl
    · rcases tick_spec S u hwf with ⟨u1x, htx, hwfx, _⟩
      rw [htick] at htx
      cases Option.some.inj htx
      exact ih u1 hwfx

/-- C5: Determinism.  Two universes constructed with the same (fixed) seed, the
same size and agent count, and given the same hyperparameters, have equal —
hence bit-identical — per-node occupancy and graffiti arrays after the same
number of ticks, regardless of the order in which nodes are processed within
each tick phase: any per-phase processing orders (permutations of the node
indices, modelling arbitrary schedules of the parallel loops) produce the same
result. -/
theorem determinism_same_seed_any_order (S A t : ℕ) (hp : HyperParams)
    (u1 u2 : Universe2D) (sched1 sched2 : ℕ → List ℕ × List ℕ × List ℕ)
    (hS : 1 ≤ S)
    (hnew1 : Universe2D.new S A = some u1)
    (hnew2 : Universe2D.new S A = some u2)
    (hs1 : ∀ k, (sched1 k).1.Perm (List.range (S * S)) ∧
      (sched1 k).2.1.Perm (List.range (S * S)) ∧
      (sched1 k).2.2.Perm (List.range (S * S)))
    (hs2 : ∀ k, (sched2 k).1.Perm (List.range (S * S)) ∧
      (sched2 k).2.1.Perm (List.range (S * S)) ∧
      (sched2 k).2.2.Perm (List.range (S * S))) :
    Universe2D.tickSeqN sched1 t (u1.set_hyper_params hp) =
      Universe2D.tickSeqN sched2 t (u2.set_hyper_params hp) ∧
    ∀ v1 v2, Universe2D.tickSeqN sched1 t (u1.set_hyper_params hp) = some v1 →
      Universe2D.tickSeqN sched2 t (u2.set_hyper_params hp) = some v2 →
      v1.nodes.map (fun nd => (nd.red_agents, nd.blue_agents)) =
        v2.nodes.map (fun nd => (nd.red_agents, nd.blue_agents)) ∧
      v1.nodes.map Node.graffiti = v2.nodes.map Node.graffiti := by
  have hu : u1 = u2 := Option.some.inj (hnew1.symm.trans hnew2)
  subst hu
  have hwf := (new_WF S A u1 hS hnew1).1
  have hwfs : WF S (u1.set_hyper_params hp) := set_hyper_params_WF S u1 hp hwf
  have e1 := tickSeqN_eq_tickN S sched1 hs1 t _ hwfs
  have e2 := tickSeqN_eq_tickN S sched2 hs2 t _ hwfs
  constructor
  · rw [e1, e2]
  · intro v1 v2 hv1 hv2
    rw [e1] at hv1
    rw [e2] at hv2
    cases Option.some.inj (hv1.symm.trans hv2)
    exact ⟨rfl, rfl⟩

/-- Witness for C5 at `S = 1`, `A = 0`, `t = 1`, with the one-node schedules. -/
theorem determinism_same_seed_any_order_witness :
    1 ≤ 1 ∧ Universe2D.new 1 0 = some universeOne ∧
    (Universe2D.tickSeqN (fun _ => ([0], [0], [0])) 1
        (universeOne.set_hyper_params HyperParams.default) =
      Universe2D.tickSeqN (fun _ => ([0], [0], [0])) 1
        (universeOne.set_hyper_params HyperParams.default) ∧
    ∀ v1 v2, Universe2D.tickSeqN (fun _ => ([0], [0], [0])) 1
        (universeOne.set_hyper_params HyperParams.default) = some v1 →
      Universe2D.tickSeqN (fun _ => ([0], [0], [0])) 1
        (universeOne.set_hyper_params HyperParams.default) = some v2 →
      v1.nodes.map (fun nd => (nd.red_agents, nd.blue_agents)) =
        v2.nodes.map (fun nd => (nd.red_agents, nd.blue_agents)) ∧
      v1.nodes.map Node.graffiti = v2.nodes.map Node.graffiti) :=
  by
  have hp0 : ([0] : List ℕ).Perm (List.range (1 * 1)) := by decide
  exact ⟨le_refl 1, rfl,
    determinism_same_seed_any_order 1 0 1 HyperParams.default universeOne universeOne
      (fun _ => ([0], [0], [0])) (fun _ => ([0], [0], [0])) (le_refl 1) rfl rfl
      (fun _ => ⟨hp0, hp0, hp0⟩) (fun _ => ⟨hp0, hp0, hp0⟩)⟩
